import Mathlib

/-!
Shallow embedding of the rune-cfg configuration-language front end
(lexer, parser, reference resolver, value resolver / flattener), translated
from the Rust sources under src/: lexer/mod.rs, lexer/scanner.rs,
lexer/tokenizer.rs, parser/mod.rs, parser/document.rs, parser/value.rs,
parser/conditional.rs, parser/reference.rs, resolver.rs, config/helpers.rs,
ast.rs, error.rs.

Modelling conventions, used throughout:
  - Machine strings are Lean String, character streams are List Char.
  - The f64 payload of numbers is modelled as an exact decimal rational,
    since numeric tokens are runs of digits and dots (no exponents, no NaN).
  - Compiled regexes are modelled by their source pattern text; the Rust
    PartialEq for Value compares regexes by source text as well.
  - Line and column counters of the lexer are dropped: they only decorate
    error values and no property below depends on them.  Errors are
    modelled by their kind and stable numeric code.
  - OS environment variables and the sysinfo backend are injected
    string-valued lookup functions, as the specification prescribes.
  - Rust functions whose recursion is bounded only by the input are given
    an explicit fuel parameter (first argument); running out of fuel
    returns the distinguished outOfFuel error, which never occurs when the
    fuel exceeds the input length (resp. recursion depth).
-/

namespace Rune

/-- Error kinds mirroring RuneError in src/error.rs.  The message, hint,
line and column fields are dropped (see the module conventions); the stable
numeric code is kept.  outOfFuel is the extra error of fuelled functions. -/
inductive ErrKind where
  | syntaxError
  | invalidToken
  | unexpectedEof
  | typeError
  | unclosedString
  | unexpectedCharacter
  | fileError
  | runtimeError
  | validationError
  | outOfFuel
deriving DecidableEq, Repr

/-- An error value: its RuneError variant together with its numeric code. -/
structure RErr where
  kind : ErrKind
  code : Option Nat
deriving DecidableEq, Repr

/-- Token type from src/lexer/mod.rs.  Constructor names are lowercased
variants of the Rust names (End, EndIf, If, Else, ElseIf, Gather, As become
endKw, endifKw, ifKw, elseKw, elseifKw, gatherKw, asKw since several Rust
names are Lean keywords). -/
inductive Token where
  | ident (s : String)
  | strLit (s : String)
  | regexLit (s : String)
  | number (n : Rat)
  | boolLit (b : Bool)
  | nullLit
  | colon
  | equalsSym
  | lbracket
  | rbracket
  | endKw
  | endifKw
  | dollar
  | dot
  | at
  | gatherKw
  | asKw
  | ifKw
  | elseKw
  | elseifKw
  | newline
  | eof
deriving DecidableEq, Repr

mutual
/-- Value from ast.rs.  The current revision of ast.rs (whose Object holds
object items rather than plain pairs) is not present in the snapshot; its
shape is modelled from the spec (section 3) and from every use site
(config/helpers.rs, parser/document.rs, config/access.rs, export.rs):
Object holds a list of ObjectItem; the ConditionalValue box is inlined as
the three arguments of the conditional constructor. -/
inductive Value where
  | str (s : String)
  | num (q : Rat)
  | bool (b : Bool)
  | regex (source : String)
  | array (elems : List Value)
  | object (items : List ObjectItem)
  | reference (path : List String)
  | interpolated (parts : List Value)
  | conditional (cond : Condition) (thenV : Value) (elseV : Option Value)
  | null

/-- ObjectItem.  Modelled from the spec: the sum type Assign(key, Value) or
IfBlock(condition, then_items, else_items?) of spec section 3, matching all
uses in config/helpers.rs and parser/conditional.rs (the IfBlock struct box
is inlined as the three arguments of the ifBlock constructor). -/
inductive ObjectItem where
  | assign (key : String) (v : Value)
  | ifBlock (cond : Condition) (thenItems : List ObjectItem)
      (elseItems : Option (List ObjectItem))

/-- Condition from ast.rs lines 3-9. -/
inductive Condition where
  | equals (path : String) (expected : Value)
  | notEquals (path : String) (expected : Value)
  | existsC (path : String)
  | notExistsC (path : String)
end

/-- Document from ast.rs lines 88-93. -/
structure Document where
  items : List (String × Value)
  metadata : List (String × Value)
  globals : List (String × Value)

/-- The empty placeholder document inserted for a gather alias
(parser/document.rs lines 179-188). -/
def emptyDocument : Document := ⟨[], [], []⟩

/-- Injected effectful lookups: OS environment variables (std::env::var)
and the sysinfo backend of resolver.rs, keyed by the canonical
underscore-spelled key.  Modelled from the spec: outside the core these are
injected string-valued lookup functions. -/
structure SysEnv where
  env : String → Option String
  sys : String → Option String

/-! Structural equality of values, translated from the PartialEq
implementations in ast.rs: all variants compare componentwise and regexes
compare by source text.  (Numbers compare as rationals; see the module
conventions.) -/

mutual
def valueBeq : Value → Value → Bool
  | .str a, .str b => a == b
  | .num a, .num b => a == b
  | .bool a, .bool b => a == b
  | .regex a, .regex b => a == b
  | .array a, .array b => valueListBeq a b
  | .object a, .object b => itemListBeq a b
  | .reference a, .reference b => a == b
  | .interpolated a, .interpolated b => valueListBeq a b
  | .conditional c1 t1 e1, .conditional c2 t2 e2 =>
      condBeq c1 c2 && valueBeq t1 t2 && optValueBeq e1 e2
  | .null, .null => true
  | _, _ => false
def valueListBeq : List Value → List Value → Bool
  | [], [] => true
  | a :: xs, b :: ys => valueBeq a b && valueListBeq xs ys
  | _, _ => false
def optValueBeq : Option Value → Option Value → Bool
  | none, none => true
  | some a, some b => valueBeq a b
  | _, _ => false
def itemBeq : ObjectItem → ObjectItem → Bool
  | .assign k1 v1, .assign k2 v2 => k1 == k2 && valueBeq v1 v2
  | .ifBlock c1 t1 e1, .ifBlock c2 t2 e2 =>
      condBeq c1 c2 && itemListBeq t1 t2 && optItemsBeq e1 e2
  | _, _ => false
def itemListBeq : List ObjectItem → List ObjectItem → Bool
  | [], [] => true
  | a :: xs, b :: ys => itemBeq a b && itemListBeq xs ys
  | _, _ => false
def optItemsBeq : Option (List ObjectItem) → Option (List ObjectItem) → Bool
  | none, none => true
  | some a, some b => itemListBeq a b
  | _, _ => false
def condBeq : Condition → Condition → Bool
  | .equals p1 v1, .equals p2 v2 => p1 == p2 && valueBeq v1 v2
  | .notEquals p1 v1, .notEquals p2 v2 => p1 == p2 && valueBeq v1 v2
  | .existsC p1, .existsC p2 => p1 == p2
  | .notExistsC p1, .notExistsC p2 => p1 == p2
  | _, _ => false
end

/-! The lexer (src/lexer/scanner.rs and src/lexer/tokenizer.rs).

The Lexer struct holds a character iterator plus a one-character lookahead;
the pair is modelled as the list of characters not yet consumed.  bump is
List.tail, the lookahead peek is List.head?. -/

/-- Character class of identifier continuation characters:
alphanumeric, underscore or hyphen (tokenizer.rs lines 90 and 183). -/
def isIdentChar (c : Char) : Bool := c.isAlphanum || c = '_' || c = '-'

/-- Translation of skip_whitespace_and_comments (scanner.rs lines 19-40),
fused with the comma rule of next_token_with_flag (tokenizer.rs lines
13-16: a comma is consumed and the whole skip-then-dispatch loop re-runs,
which consumes exactly the same characters as skipping commas here).  The
inComment flag encodes being inside the inner comment loop, which consumes
up to and including the next newline. -/
def skip_whitespace_and_comments (skipNewlines : Bool) :
    Bool → List Char → List Char
  | _, [] => []
  | true, c :: r =>
      if c = '\n' then skip_whitespace_and_comments skipNewlines false r
      else skip_whitespace_and_comments skipNewlines true r
  | false, c :: r =>
      if c = ' ' ∨ c = '\t' then skip_whitespace_and_comments skipNewlines false r
      else if c = '\n' then
        (if skipNewlines then skip_whitespace_and_comments skipNewlines false r
         else c :: r)
      else if c = '#' then skip_whitespace_and_comments skipNewlines true r
      else if c = ',' then skip_whitespace_and_comments skipNewlines false r
      else c :: r

/-- Outcome of the character-consuming scan loop shared by string and regex
literals: the loop either consumed an unescaped closing quote (closed, with
the remaining input), fell off the end of the input (eofPlain), or hit the
end of input right after an escape backslash (eofBackslash). -/
inductive ScanOut where
  | closed (content : String) (rest : List Char)
  | eofPlain (content : String)
  | eofBackslash (content : String)
deriving DecidableEq, Repr

/-- Escape expansion of tokenize_string (tokenizer.rs lines 114-125): the
listed escapes map to their literal character, anything else passes
through unchanged. -/
def escChar (c : Char) : Char :=
  if c = 'n' then '\n'
  else if c = 't' then '\t'
  else if c = 'r' then '\r'
  else if c = '\\' then '\\'
  else if c = '"' then '"'
  else if c = '\'' then '\''
  else if c = '$' then '$'
  else if c = '{' then '{'
  else if c = '}' then '}'
  else c

/-- The scan loop of tokenize_string (tokenizer.rs lines 105-140):
content accumulates decoded characters until the matching unescaped quote. -/
def stringScan (quote : Char) : List Char → String → ScanOut
  | [], acc => .eofPlain acc
  | c :: r, acc =>
      if c = quote then .closed acc r
      else if c = '\\' then
        match r with
        | [] => .eofBackslash acc
        | e :: r2 => stringScan quote r2 (acc.push (escChar e))
      else stringScan quote r (acc.push c)

/-- Last character test, translation of str::ends_with(char). -/
def strEndsWith (s : String) (c : Char) : Bool :=
  match s.data.getLast? with
  | some d => d = c
  | none => false

/-- Translation of tokenize_string (tokenizer.rs lines 101-154), applied to
the input after the opening quote was consumed.  After the loop, the Rust
code raises UnclosedString(103) when the lookahead is exhausted and the
decoded content does not end with the quote character; this applies both
when the loop exited through the closing quote and when it fell off the
end of the input. -/
def tokenize_string (quote : Char) (s : List Char) :
    Except RErr (Token × List Char) :=
  match stringScan quote s "" with
  | .closed content rest =>
      if rest = [] ∧ ¬ strEndsWith content quote then
        .error ⟨.unclosedString, some 103⟩
      else .ok (.strLit content, rest)
  | .eofPlain content =>
      if ¬ strEndsWith content quote then .error ⟨.unclosedString, some 103⟩
      else .ok (.strLit content, [])
  | .eofBackslash _ => .error ⟨.unclosedString, some 103⟩

/-- The scan loop of tokenize_regex_literal (tokenizer.rs lines 57-80):
backslashes are preserved literally together with their following
character. -/
def regexScan : List Char → String → ScanOut
  | [], acc => .eofPlain acc
  | c :: r, acc =>
      if c = '"' then .closed acc r
      else if c = '\\' then
        match r with
        | [] => .eofBackslash acc
        | e :: r2 => regexScan r2 ((acc.push '\\').push e)
      else regexScan r (acc.push c)

/-- Translation of tokenize_regex_literal (tokenizer.rs lines 53-83),
applied to the input after the opening r and quote were consumed.  Note the
loop returns Ok(Regex(content)) when it falls off the end of the input
without a closing quote; only the trailing-backslash case raises
UnclosedString(103). -/
def tokenize_regex_literal (s : List Char) : Except RErr (Token × List Char) :=
  match regexScan s "" with
  | .closed content rest => .ok (.regexLit content, rest)
  | .eofPlain content => .ok (.regexLit content, [])
  | .eofBackslash _ => .error ⟨.unclosedString, some 103⟩

/-- Identifier scan loop (tokenizer.rs lines 182-189 and 89-96): collects
alphanumeric, underscore and hyphen characters onto acc. -/
def identScan : List Char → String → String × List Char
  | [], acc => (acc, [])
  | c :: r, acc =>
      if isIdentChar c then identScan r (acc.push c) else (acc, c :: r)

/-- Keyword table of tokenize_identifier_or_keyword (tokenizer.rs lines
192-199): exactly true, false, end, gather, as, null and None map to
dedicated tokens; every other identifier run stays an Ident. -/
def keywordToken (s : String) : Token :=
  if s = "true" then .boolLit true
  else if s = "false" then .boolLit false
  else if s = "end" then .endKw
  else if s = "gather" then .gatherKw
  else if s = "as" then .asKw
  else if s = "null" ∨ s = "None" then .nullLit
  else .ident s

/-- Number scan loop (tokenizer.rs lines 159-166): collects digits and
dots. -/
def numScan : List Char → String → String × List Char
  | [], acc => (acc, [])
  | c :: r, acc =>
      if c.isDigit ∨ c = '.' then numScan r (acc.push c) else (acc, c :: r)

/-- Numeric value of a digit run. -/
def digitsToNat : List Char → Nat → Nat
  | [], acc => acc
  | c :: r, acc => digitsToNat r (acc * 10 + (c.toNat - '0'.toNat))

/-- Split a character run at every dot. -/
def splitAtDots : List Char → List Char → List (List Char)
  | [], acc => [acc.reverse]
  | c :: r, acc =>
      if c = '.' then acc.reverse :: splitAtDots r []
      else splitAtDots r (c :: acc)

/-- Model of f64::from_str restricted to the strings tokenize_number can
produce (runs of digits and dots starting with a digit): at most one dot is
accepted and the value is the exact decimal; two or more dots fail, as
with 1.2.3 in the Rust code. -/
def parseDecimal (s : String) : Option Rat :=
  match splitAtDots s.data [] with
  | [ip] => some ((digitsToNat ip 0 : Rat))
  | [ip, fp] =>
      some ((digitsToNat ip 0 : Rat) + (digitsToNat fp 0 : Rat) / ((10 : Rat) ^ fp.length))
  | _ => none

/-- Translation of next_token_with_flag (tokenizer.rs lines 4-29) together
with the dispatched tokenize_ helpers: skip whitespace, comments (and
commas, see skip_whitespace_and_comments), then dispatch on the lookahead
character.  The branch order mirrors the Rust match arms. -/
def next_token_with_flag (skipNewlines : Bool) (s : List Char) :
    Except RErr (Token × List Char) :=
  match skip_whitespace_and_comments skipNewlines false s with
  | [] => .ok (.eof, [])
  | c :: r =>
      if c = '\n' then .ok (.newline, r)
      else if c = ':' then .ok (.colon, r)
      else if c = '=' then .ok (.equalsSym, r)
      else if c = '[' then .ok (.lbracket, r)
      else if c = ']' then .ok (.rbracket, r)
      else if c = '$' then .ok (.dollar, r)
      else if c = '.' then .ok (.dot, r)
      else if c = '@' then .ok (.at, r)
      else if c = 'r' then
        match r with
        | '"' :: r2 => tokenize_regex_literal r2
        | _ =>
          let (idStr, rest) := identScan r "r"
          .ok (.ident idStr, rest)
      else if c = '"' ∨ c = '\'' then tokenize_string c r
      else if c.isDigit then
        let (numStr, rest) := numScan (c :: r) ""
        match parseDecimal numStr with
        | some q => .ok (.number q, rest)
        | none => .error ⟨.typeError, some 102⟩
      else if c.isAlpha then
        let (idStr, rest) := identScan (c :: r) ""
        .ok (keywordToken idStr, rest)
      else .error ⟨.unexpectedCharacter, some 104⟩

/-- Lexer::next_token (lexer/mod.rs lines 74-76): newlines significant. -/
def next_token (s : List Char) : Except RErr (Token × List Char) :=
  next_token_with_flag false s

/-- Lexer::next_token_in_array (lexer/mod.rs lines 79-81): newlines
ignored. -/
def next_token_in_array (s : List Char) : Except RErr (Token × List Char) :=
  next_token_with_flag true s

/-! The dollar-namespace resolver (src/resolver.rs). -/

/-- Join path segments with dots (str::join). -/
def joinDots : List String → String
  | [] => ""
  | [s] => s
  | s :: rest => s ++ "." ++ joinDots rest

/-- Translation of resolve_env (resolver.rs lines 159-170): a path other
than env.VAR is a Syntax error 209; otherwise the variable value, with the
empty string as default when it is unset (env::var(..).unwrap_or_default). -/
def resolve_env (se : SysEnv) (path : List String) : Except RErr String :=
  match path with
  | [_, varName] => .ok ((se.env varName).getD "")
  | _ => .error ⟨.syntaxError, some 209⟩

/-- Key table of resolve_sys (resolver.rs lines 186-209): hyphen and
underscore spellings map to the same canonical key; an unknown key yields
none (Syntax error 212 at the call site). -/
def sysKeyCanon (k : String) : Option String :=
  if k = "os" then some "os"
  else if k = "kernel_version" ∨ k = "kernel-version" then some "kernel_version"
  else if k = "os_version" ∨ k = "os-version" then some "os_version"
  else if k = "hostname" then some "hostname"
  else if k = "product_name" ∨ k = "product-name" then some "product_name"
  else if k = "cpu_arch" ∨ k = "cpu-arch" then some "cpu_arch"
  else if k = "cpu_count" ∨ k = "cpu-count" then some "cpu_count"
  else if k = "memory_total" ∨ k = "memory-total" then some "memory_total"
  else if k = "memory_free" ∨ k = "memory-free" then some "memory_free"
  else if k = "memory_used" ∨ k = "memory-used" then some "memory_used"
  else if k = "uptime" then some "uptime"
  else none

/-- Translation of resolve_sys (resolver.rs lines 173-218) with the
sysinfo backend abstracted as the injected lookup se.sys: missing key
segment is Syntax 211, unknown key Syntax 212, a lookup returning nothing
Syntax 213. -/
def resolve_sys (se : SysEnv) (path : List String) : Except RErr String :=
  match path.get? 1 with
  | none => .error ⟨.syntaxError, some 211⟩
  | some key =>
      match sysKeyCanon key with
      | none => .error ⟨.syntaxError, some 212⟩
      | some ck =>
          match se.sys ck with
          | none => .error ⟨.syntaxError, some 213⟩
          | some v => .ok v

/-- Translation of parse_dollar_reference (resolver.rs lines 145-156):
env and sys are resolved eagerly to strings; runtime and anything else
stay a deferred Reference (both fall to the same result, as in the Rust
match where the runtime arm and the catch-all arm coincide). -/
def parse_dollar_reference (se : SysEnv) (path : List String) :
    Except RErr Value :=
  match path with
  | [] => .ok (.reference [])
  | p0 :: _ =>
      if p0 = "env" then (resolve_env se path).map .str
      else if p0 = "sys" then (resolve_sys se path).map .str
      else .ok (.reference path)

/-- Dot-extension loop of expand_dollar_string (resolver.rs lines 37-62
and 89-114): called right after a dot was consumed, with the segment
collected so far in segAcc; an empty segment is Syntax error 210. -/
def dotLoop (acc : List String) (segAcc : String) :
    List Char → Except RErr (List String × List Char)
  | [] =>
      if segAcc = "" then .error ⟨.syntaxError, some 210⟩
      else .ok (acc ++ [segAcc], [])
  | c :: r =>
      if isIdentChar c then dotLoop acc (segAcc.push c) r
      else if segAcc = "" then .error ⟨.syntaxError, some 210⟩
      else if c = '.' then dotLoop (acc ++ [segAcc]) "" r
      else .ok (acc ++ [segAcc], c :: r)

/-- Whole-string reference branch of expand_dollar_string (resolver.rs
lines 20-69), applied to the characters after the leading dollar.  The
final dispatch on the namespace (env and sys resolved to strings, all
other namespaces kept as a Reference) coincides with the match of
parse_dollar_reference and is shared with it. -/
def singleDollarRef (se : SysEnv) (rest : List Char) : Except RErr Value := do
  let scan := identScan rest ""
  let pr ← match scan.2 with
           | '.' :: r2 => dotLoop [scan.1] "" r2
           | _ => pure ([scan.1], scan.2)
  parse_dollar_reference se pr.1

/-- Interpolation loop of expand_dollar_string (resolver.rs lines 72-127):
replaces every embedded dollar path by its env or sys value (or keeps the
dollar text for other namespaces) and copies other characters.  Fuelled:
every iteration consumes at least one character, so fuel exceeding the
input length never runs out. -/
def interpLoop (se : SysEnv) : Nat → List Char → String → Except RErr String
  | 0, _, _ => .error ⟨.outOfFuel, none⟩
  | _ + 1, [], acc => .ok acc
  | fuel + 1, c :: r, acc =>
      if c = '$' then do
        let (ns, r1) := identScan r ""
        let pr ← match r1 with
                 | '.' :: rr => dotLoop [ns] "" rr
                 | _ => pure ([ns], r1)
        let repl ← match pr.1 with
                   | p0 :: _ =>
                       if p0 = "env" then resolve_env se pr.1
                       else if p0 = "sys" then resolve_sys se pr.1
                       else pure ("$" ++ joinDots pr.1)
                   | [] => pure ("$" ++ joinDots pr.1)
        interpLoop se fuel pr.2 (acc ++ repl)
      else interpLoop se fuel r (acc.push c)

/-- Guard of the whole-string reference branch: the string starts with a
dollar and its remainder contains neither a space nor a slash. -/
def wholeRefCond : List Char → Bool
  | '$' :: rest => ¬ (rest.contains ' ') && ¬ (rest.contains '/')
  | _ => false

/-- Translation of expand_dollar_string (resolver.rs lines 13-128):
strings without a dollar pass through; a string that is a single dollar
reference resolves as such; anything else goes through inline
interpolation. -/
def expand_dollar_string (se : SysEnv) (s : String) : Except RErr Value :=
  if ¬ (s.data.contains '$') then .ok (.str s)
  else if wholeRefCond s.data then
    match s.data with
    | _ :: rest => singleDollarRef se rest
    | [] => .ok (.str s)
  else (interpLoop se (s.data.length + 1) s.data "").map .str

/-! The parser (src/parser/mod.rs, document.rs, value.rs, conditional.rs).

Parser state: the remaining character stream of the lexer, the one-token
lookahead buffer, and the import table.  The import table (a HashMap in
the Rust code) is modelled as an association list whose lookup returns the
entry for the key, which is unique by construction. -/

/-- Parser state (parser/mod.rs lines 12-16). -/
structure ParseSt where
  src : List Char
  peekTok : Option Token
  imports : List (String × Document)

/-- Import-table lookup (HashMap::get). -/
def lookupImport (imps : List (String × Document)) (k : String) :
    Option Document :=
  (imps.find? (fun p => p.1 == k)).map (·.2)

/-- Import-table insert-or-overwrite (HashMap::insert), used by
Parser::inject_import (parser/mod.rs lines 29-31). -/
def inject_import (imps : List (String × Document)) (k : String)
    (d : Document) : List (String × Document) :=
  if (lookupImport imps k).isSome then
    imps.map (fun p => if p.1 == k then (k, d) else p)
  else imps ++ [(k, d)]

/-- Parser::new (parser/mod.rs lines 19-27): prime the lookahead with the
first token. -/
def parserNew (s : String) : Except RErr ParseSt := do
  let (t, rest) ← next_token s.data
  pure ⟨rest, some t, []⟩

/-- Parser::bump (parser/mod.rs lines 33-43): take the lookahead (an empty
buffer is UnexpectedEof 201, unreachable in normal operation) and refill it
from the lexer. -/
def bumpP (st : ParseSt) : Except RErr (Token × ParseSt) :=
  match st.peekTok with
  | none => .error ⟨.unexpectedEof, some 201⟩
  | some t => do
      let (t2, rest) ← next_token st.src
      pure (t, ⟨rest, some t2, st.imports⟩)

/-- Last path component (the part after the final slash), helper for the
file-stem model below. -/
def lastComp : List Char → List Char → List Char
  | [], acc => acc.reverse
  | c :: r, acc => if c = '/' then lastComp r [] else lastComp r (c :: acc)

/-- Characters before the last dot of a component, none when it has no
dot. -/
def beforeLastDot : List Char → Option (List Char)
  | [] => none
  | c :: r =>
      match beforeLastDot r with
      | some t => some (c :: t)
      | none => if c = '.' then some [] else none

/-- Model of std Path::file_stem with the unwrap_or of
parse_gather_statement (parser/document.rs lines 168-174): the last path
component minus its extension; a component that starts with a dot and has
no further dot is its own stem; an empty component falls back to the
string imported. -/
def fileStem (s : String) : String :=
  match lastComp s.data [] with
  | [] => "imported"
  | c :: t =>
      if c = '.' ∧ ¬ (t.contains '.') then ⟨c :: t⟩
      else
        match beforeLastDot (c :: t) with
        | some pre => if pre.isEmpty then ⟨c :: t⟩ else ⟨pre⟩
        | none => ⟨c :: t⟩

/-- Token-level dotted-path loop shared verbatim by
parse_dollar_reference_value (parser/value.rs lines 148-161) and
parse_reference_value (parser/value.rs lines 176-189): consume
dot-identifier pairs while the lookahead is a dot.  (Here and in all parse
functions below, the token-state pair returned by bump and by sub-parsers
is accessed through its projections rather than a destructuring bind.) -/
def parseDotPath : Nat → ParseSt → List String →
    Except RErr (List String × ParseSt)
  | 0, _, _ => .error ⟨.outOfFuel, none⟩
  | fuel + 1, st, acc =>
      match st.peekTok with
      | some .dot => do
          let b1 ← bumpP st
          let b2 ← bumpP b1.2
          match b2.1 with
          | .ident name => parseDotPath fuel b2.2 (acc ++ [name])
          | _ => .error ⟨.syntaxError, some 210⟩
      | _ => .ok (acc, st)

/-- Translation of parse_dollar_reference_value (parser/value.rs lines
121-164): a dollar must be followed by the namespace identifier env, sys
or runtime (Syntax 209 otherwise), then dot extensions; the path is handed
to the resolver-level parse_dollar_reference. -/
def parse_dollar_reference_value (fuel : Nat) (st : ParseSt) (se : SysEnv) :
    Except RErr (Value × ParseSt) := do
  let b1 ← bumpP st
  let b2 ← bumpP b1.2
  match b2.1 with
  | .ident name =>
      if name ≠ "env" ∧ name ≠ "sys" ∧ name ≠ "runtime" then
        .error ⟨.syntaxError, some 209⟩
      else do
        let pr ← parseDotPath fuel b2.2 [name]
        let v ← parse_dollar_reference se pr.1
        pure (v, pr.2)
  | _ => .error ⟨.syntaxError, some 209⟩

/-- Translation of parse_reference_value (parser/value.rs lines 166-192):
a bare identifier with dot extensions becomes a deferred Reference. -/
def parse_reference_value (fuel : Nat) (st : ParseSt) :
    Except RErr (Value × ParseSt) := do
  let b1 ← bumpP st
  match b1.1 with
  | .ident name => do
      let pr ← parseDotPath fuel b1.2 [name]
      pure (.reference pr.1, pr.2)
  | _ => .error ⟨.invalidToken, none⟩

/-- Translation of parse_gather_statement (parser/document.rs lines
139-191): require a string after gather, an optional as-alias (default:
the file stem), then insert a placeholder document for the alias if it is
not already present. -/
def parse_gather_statement (st : ParseSt) : Except RErr ParseSt := do
  let b1 ← bumpP st
  let b2 ← bumpP b1.2
  match b2.1 with
  | .strLit filename => do
      let ar ←
        match b2.2.peekTok with
        | some .asKw => do
            let bA ← bumpP b2.2
            let bB ← bumpP bA.2
            match bB.1 with
            | .ident a => pure (a, bB.2)
            | _ => .error ⟨.syntaxError, some 212⟩
        | _ => pure (fileStem filename, b2.2)
      let imps :=
        if (lookupImport ar.2.imports ar.1).isSome then ar.2.imports
        else ar.2.imports ++ [(ar.1, emptyDocument)]
      pure { ar.2 with imports := imps }
  | _ => .error ⟨.syntaxError, some 211⟩

mutual

/-- Top-level parse loop of parse_document (parser/document.rs lines
14-60), with the three accumulator vectors threaded through.  A dollar at
top level is Syntax 213; any other unexpected token is InvalidToken 205. -/
def parseDocLoop (se : SysEnv) : Nat → ParseSt → List (String × Value) →
    List (String × Value) → List (String × Value) →
    Except RErr (Document × ParseSt)
  | 0, _, _, _, _ => .error ⟨.outOfFuel, none⟩
  | fuel + 1, st, metadata, globals, items =>
      match st.peekTok with
      | none => .ok (⟨items, metadata, globals⟩, st)
      | some tok =>
          match tok with
          | .newline => do
              let b ← bumpP st
              parseDocLoop se fuel b.2 metadata globals items
          | .eof => .ok (⟨items, metadata, globals⟩, st)
          | .at => do
              let b1 ← bumpP st
              let b2 ← bumpP b1.2
              match b2.1 with
              | .ident key => do
                  let pv ← parse_value se fuel b2.2
                  parseDocLoop se fuel pv.2 (metadata ++ [(key, pv.1)])
                    globals items
              | _ => .error ⟨.syntaxError, some 203⟩
          | .ident _ => do
              let ti ← parse_top_level_item se fuel st globals items
              parseDocLoop se fuel ti.2.2 metadata ti.1 ti.2.1
          | .gatherKw => do
              let st1 ← parse_gather_statement st
              parseDocLoop se fuel st1 metadata globals items
          | .dollar => .error ⟨.syntaxError, some 213⟩
          | _ => .error ⟨.invalidToken, some 205⟩

/-- Translation of parse_top_level_item (parser/document.rs lines 80-137):
an identifier starts a colon block (an Object appended to items) or a
global assignment with optional equals sign. -/
def parse_top_level_item (se : SysEnv) : Nat → ParseSt →
    List (String × Value) → List (String × Value) →
    Except RErr (List (String × Value) × List (String × Value) × ParseSt)
  | 0, _, _, _ => .error ⟨.outOfFuel, none⟩
  | fuel + 1, st, globals, items => do
      let b1 ← bumpP st
      match b1.1 with
      | .ident key =>
          match b1.2.peekTok with
          | some .colon => do
              let b2 ← bumpP b1.2
              let ob ← parseBlockBody se fuel b2.2 []
              pure (globals, items ++ [(key, .object ob.1)], ob.2)
          | some .equalsSym => do
              let b2 ← bumpP b1.2
              let pv ← parse_value se fuel b2.2
              pure (globals ++ [(key, pv.1)], items, pv.2)
          | _ => do
              let pv ← parse_value se fuel b1.2
              pure (globals ++ [(key, pv.1)], items, pv.2)
      | _ => .error ⟨.invalidToken, none⟩

/-- Block-body loop of parse_top_level_item (parser/document.rs lines
92-119): assignments, block if-statements and newlines until end; anything
else is InvalidToken 207.  An exhausted token buffer exits the loop as in
the Rust while-let. -/
def parseBlockBody (se : SysEnv) : Nat → ParseSt → List ObjectItem →
    Except RErr (List ObjectItem × ParseSt)
  | 0, _, _ => .error ⟨.outOfFuel, none⟩
  | fuel + 1, st, acc =>
      match st.peekTok with
      | none => .ok (acc, st)
      | some (.ident _) => do
          let kv ← parse_assignment se fuel st
          parseBlockBody se fuel kv.2 (acc ++ [.assign kv.1.1 kv.1.2])
      | some .ifKw => do
          let ib ← parse_if_block se fuel st
          parseBlockBody se fuel ib.2 (acc ++ [ib.1])
      | some .endKw => do
          let b ← bumpP st
          .ok (acc, b.2)
      | some .newline => do
          let b ← bumpP st
          parseBlockBody se fuel b.2 acc
      | some _ => .error ⟨.invalidToken, some 207⟩

/-- Translation of parse_assignment (parser/value.rs lines 4-59): an
identifier key followed by a colon opens a nested object of further
assignments, an optional equals sign otherwise precedes the value. -/
def parse_assignment (se : SysEnv) : Nat → ParseSt →
    Except RErr ((String × Value) × ParseSt)
  | 0, _ => .error ⟨.outOfFuel, none⟩
  | fuel + 1, st => do
      let b1 ← bumpP st
      match b1.1 with
      | .ident key =>
          match b1.2.peekTok with
          | some .colon => do
              let b2 ← bumpP b1.2
              let ob ← parseNestedObjLoop se fuel b2.2 []
              pure ((key, .object ob.1), ob.2)
          | some .equalsSym => do
              let b2 ← bumpP b1.2
              let pv ← parse_value se fuel b2.2
              pure ((key, pv.1), pv.2)
          | _ => do
              let pv ← parse_value se fuel b1.2
              pure ((key, pv.1), pv.2)
      | _ => .error ⟨.syntaxError, some 208⟩

/-- Nested-object loop of parse_assignment (parser/value.rs lines 20-46):
only assignments and newlines until end; anything else is InvalidToken 207
(in particular no if-blocks here, unlike the top-level block body).  The
collected pairs populate an Object as Assign items. -/
def parseNestedObjLoop (se : SysEnv) : Nat → ParseSt → List ObjectItem →
    Except RErr (List ObjectItem × ParseSt)
  | 0, _, _ => .error ⟨.outOfFuel, none⟩
  | fuel + 1, st, acc =>
      match st.peekTok with
      | none => .ok (acc, st)
      | some (.ident _) => do
          let kv ← parse_assignment se fuel st
          parseNestedObjLoop se fuel kv.2 (acc ++ [.assign kv.1.1 kv.1.2])
      | some .endKw => do
          let b ← bumpP st
          .ok (acc, b.2)
      | some .newline => do
          let b ← bumpP st
          parseNestedObjLoop se fuel b.2 acc
      | some _ => .error ⟨.invalidToken, some 207⟩

/-- Translation of parse_value (parser/value.rs lines 61-82) with the
dispatched helpers inlined where they are one-liners: strings expand
embedded dollars, numbers, booleans, regex literals and null map to their
Value, a dollar starts a namespace reference, an identifier a deferred
reference, a bracket an array; anything else is InvalidToken 210 (after
consuming the offending token). -/
def parse_value (se : SysEnv) : Nat → ParseSt → Except RErr (Value × ParseSt)
  | 0, _ => .error ⟨.outOfFuel, none⟩
  | fuel + 1, st =>
      match st.peekTok with
      | some (.strLit _) => do
          let b ← bumpP st
          match b.1 with
          | .strLit s0 => do
              let v ← expand_dollar_string se s0
              pure (v, b.2)
          | _ => .error ⟨.invalidToken, none⟩
      | some (.number _) => do
          let b ← bumpP st
          match b.1 with
          | .number n => pure (.num n, b.2)
          | _ => .error ⟨.invalidToken, none⟩
      | some (.boolLit _) => do
          let b ← bumpP st
          match b.1 with
          | .boolLit bv => pure (.bool bv, b.2)
          | _ => .error ⟨.invalidToken, none⟩
      | some (.regexLit _) => do
          let b ← bumpP st
          match b.1 with
          | .regexLit r => pure (.regex r, b.2)
          | _ => .error ⟨.invalidToken, none⟩
      | some .dollar => parse_dollar_reference_value fuel st se
      | some (.ident _) => parse_reference_value fuel st
      | some .lbracket => do
          let b ← bumpP st
          parseArrayLoop se fuel b.2 []
      | some .nullLit => do
          let b ← bumpP st
          pure (.null, b.2)
      | _ => do
          let b ← bumpP st
          let _ := b
          .error ⟨.invalidToken, some 210⟩

/-- Array loop of parse_array_value (parser/value.rs lines 194-215):
values and newlines until the closing bracket (commas were already skipped
by the lexer); the while-let exits silently on an exhausted buffer. -/
def parseArrayLoop (se : SysEnv) : Nat → ParseSt → List Value →
    Except RErr (Value × ParseSt)
  | 0, _, _ => .error ⟨.outOfFuel, none⟩
  | fuel + 1, st, acc =>
      match st.peekTok with
      | none => .ok (.array acc, st)
      | some .rbracket => do
          let b ← bumpP st
          .ok (.array acc, b.2)
      | some .newline => do
          let b ← bumpP st
          parseArrayLoop se fuel b.2 acc
      | some _ => do
          let pv ← parse_value se fuel st
          parseArrayLoop se fuel pv.2 (acc ++ [pv.1])

/-- Translation of parse_if_block (parser/conditional.rs lines 45-109):
if condition colon, then-branch items until else or endif, an optional
else colon branch until endif, and a mandatory closing endif; every
malformed delimiter is Syntax 214. -/
def parse_if_block (se : SysEnv) : Nat → ParseSt →
    Except RErr (ObjectItem × ParseSt)
  | 0, _ => .error ⟨.outOfFuel, none⟩
  | fuel + 1, st => do
      let b1 ← bumpP st
      let pc ← parse_condition se fuel b1.2
      let b2 ← bumpP pc.2
      match b2.1 with
      | .colon => do
          let ti ← parseItemsUntil se fuel b2.2 true []
          match ti.2.peekTok with
          | some .elseKw => do
              let b3 ← bumpP ti.2
              let b4 ← bumpP b3.2
              match b4.1 with
              | .colon => do
                  let ei ← parseItemsUntil se fuel b4.2 false []
                  let b5 ← bumpP ei.2
                  match b5.1 with
                  | .endifKw => pure (.ifBlock pc.1 ti.1 (some ei.1), b5.2)
                  | _ => .error ⟨.syntaxError, some 214⟩
              | _ => .error ⟨.syntaxError, some 214⟩
          | _ => do
              let b3 ← bumpP ti.2
              match b3.1 with
              | .endifKw => pure (.ifBlock pc.1 ti.1 none, b3.2)
              | _ => .error ⟨.syntaxError, some 214⟩
      | _ => .error ⟨.syntaxError, some 214⟩

/-- Translation of parse_object_items_until (parser/conditional.rs lines
117-177): stopAtElse selects the then-branch stop set (else or endif)
against the else-branch one (endif only, a stray else is InvalidToken
207); an end inside an if-block is the dedicated Syntax error 214
suggesting endif; other unexpected tokens are InvalidToken 207. -/
def parseItemsUntil (se : SysEnv) : Nat → ParseSt → Bool → List ObjectItem →
    Except RErr (List ObjectItem × ParseSt)
  | 0, _, _, _ => .error ⟨.outOfFuel, none⟩
  | fuel + 1, st, stopAtElse, acc =>
      match st.peekTok with
      | none => .ok (acc, st)
      | some .newline => do
          let b ← bumpP st
          parseItemsUntil se fuel b.2 stopAtElse acc
      | some (.ident _) => do
          let kv ← parse_assignment se fuel st
          parseItemsUntil se fuel kv.2 stopAtElse
            (acc ++ [.assign kv.1.1 kv.1.2])
      | some .ifKw => do
          let ib ← parse_if_block se fuel st
          parseItemsUntil se fuel ib.2 stopAtElse (acc ++ [ib.1])
      | some .elseKw =>
          if stopAtElse then .ok (acc, st)
          else .error ⟨.invalidToken, some 207⟩
      | some .endifKw => .ok (acc, st)
      | some .endKw => .error ⟨.syntaxError, some 214⟩
      | some _ => .error ⟨.invalidToken, some 207⟩

/-- Translation of parse_condition (parser/conditional.rs lines 179-200):
an identifier path, optionally followed by an equals sign and a value;
bare path tests existence, with value it tests equality.  Only these two
constructors are ever produced. -/
def parse_condition (se : SysEnv) : Nat → ParseSt →
    Except RErr (Condition × ParseSt)
  | 0, _ => .error ⟨.outOfFuel, none⟩
  | fuel + 1, st => do
      let b1 ← bumpP st
      match b1.1 with
      | .ident name =>
          match b1.2.peekTok with
          | some .equalsSym => do
              let b2 ← bumpP b1.2
              let pv ← parse_value se fuel b2.2
              pure (.equals name pv.1, pv.2)
          | _ => pure (.existsC name, b1.2)
      | _ => .error ⟨.syntaxError, some 214⟩

end

/-- Translation of parse_conditional (parser/conditional.rs lines 11-29),
the inline value conditional.  No production of the parser in this
snapshot dispatches into it (parse_value has no If arm), but it is part of
the source. -/
def parse_conditional (se : SysEnv) (fuel : Nat) (st : ParseSt) :
    Except RErr (Value × ParseSt) := do
  let b1 ← bumpP st
  let pc ← parse_condition se fuel b1.2
  let pv ← parse_value se fuel pc.2
  match pv.2.peekTok with
  | some .elseKw => do
      let b2 ← bumpP pv.2
      let pe ← parse_value se fuel b2.2
      pure (.conditional pc.1 pv.1 (some pe.1), pe.2)
  | _ => pure (.conditional pc.1 pv.1 none, pv.2)

/-- Parser::parse_document (parser/mod.rs lines 73-75, parser/document.rs
lines 14-60). -/
def parse_document (se : SysEnv) (fuel : Nat) (st : ParseSt) :
    Except RErr (Document × ParseSt) :=
  parseDocLoop se fuel st [] [] []

/-- Parse a whole source string: Parser::new followed by parse_document. -/
def parseRune (se : SysEnv) (fuel : Nat) (s : String) :
    Except RErr (Document × ParseSt) := do
  let st ← parserNew s
  parse_document se fuel st

/-! The reference resolver (src/parser/reference.rs). -/

/-- Search the Assign entries of an object item list for a key
(reference.rs lines 58-61): if-blocks are not evaluated here. -/
def lookupAssign : List ObjectItem → String → Option Value
  | [], _ => none
  | .assign k v :: rest, seg =>
      if k == seg then some v else lookupAssign rest seg
  | .ifBlock _ _ _ :: rest, seg => lookupAssign rest seg

/-- Walk the remaining path segments through nested objects (reference.rs
lines 49-71): a non-object intermediate value or a missing key fails. -/
def walkSegments : Value → List String → Option Value
  | cur, [] => some cur
  | .object items, seg :: rest =>
      match lookupAssign items seg with
      | some v => walkSegments v rest
      | none => none
  | _, _ :: _ => none

/-- First-segment lookup in a document (reference.rs lines 31-46): items
first, then globals; the first match wins. -/
def findFirstSegment (d : Document) (seg : String) : Option Value :=
  match d.items.find? (fun p => p.1 == seg) with
  | some p => some p.2
  | none => (d.globals.find? (fun p => p.1 == seg)).map (·.2)

/-- Translation of resolve_reference (parser/reference.rs lines 6-74):
empty path fails; a first segment that is an import alias switches to the
imported document and drops the segment; the remaining path is walked from
the items-then-globals lookup through nested objects. -/
def resolve_reference (imps : List (String × Document)) (path : List String)
    (doc : Document) : Option Value :=
  match path with
  | [] => none
  | p0 :: rest0 =>
      let ctxPair : Document × List String :=
        match lookupImport imps p0 with
        | some d => (d, rest0)
        | none => (doc, p0 :: rest0)
      match ctxPair.2 with
      | [] => none
      | s0 :: rest =>
          match findFirstSegment ctxPair.1 s0 with
          | some v => walkSegments v rest
          | none => none

/-! Condition evaluation and value resolution (src/config/helpers.rs).

The resolution context bundles what the Rust code passes as the parser
(for its import table), the main document and the ambient effectful
lookups. -/

/-- Resolution context of config/helpers.rs: the parser import table, the
main document, and the injected environment and system lookups. -/
structure RunCtx where
  se : SysEnv
  imports : List (String × Document)
  doc : Document

/-- Split a path string at every dot (str::split), as in
resolve_path_value (helpers.rs line 201); the empty string yields one
empty segment. -/
def splitDots (s : String) : List String :=
  (splitAtDots s.data []).map (fun l => ⟨l⟩)

/-- Inner resolve_path_value of condition_is_met (helpers.rs lines
200-211): a path of two or more segments whose head is env, sys or
runtime goes through the dollar resolver with its errors folded to none;
every other path goes through document reference resolution. -/
def resolvePathValue (ctx : RunCtx) (path : String) : Option Value :=
  let segs := splitDots path
  if 2 ≤ segs.length then
    match segs with
    | s0 :: _ =>
        if s0 = "env" ∨ s0 = "sys" ∨ s0 = "runtime" then
          (parse_dollar_reference ctx.se segs).toOption
        else resolve_reference ctx.imports segs ctx.doc
    | [] => resolve_reference ctx.imports segs ctx.doc
  else resolve_reference ctx.imports segs ctx.doc

/-- Translation of condition_is_met (helpers.rs lines 193-225): a total
Boolean function; absence of the path folds to false for Equals, true for
NotEquals, and decides Exists and NotExists; equality is the structural
PartialEq of values. -/
def condition_is_met (ctx : RunCtx) : Condition → Bool
  | .equals path expected =>
      match resolvePathValue ctx path with
      | some actual => valueBeq actual expected
      | none => false
  | .notEquals path expected =>
      match resolvePathValue ctx path with
      | some actual => ! valueBeq actual expected
      | none => true
  | .existsC path => (resolvePathValue ctx path).isSome
  | .notExistsC path => (resolvePathValue ctx path).isNone

/-- Translation of evaluate_conditional (helpers.rs lines 227-237): pick
the then-value or the else-value (Null when absent). -/
def evaluate_conditional (ctx : RunCtx) (cond : Condition) (thenV : Value)
    (elseV : Option Value) : Value :=
  if condition_is_met ctx cond then thenV
  else match elseV with
       | some e => e
       | none => .null

/-- Map a fallible function over a list, propagating the first error
(the for-loop of the Array case, helpers.rs lines 271-277). -/
def exceptList (f : Value → Except RErr Value) :
    List Value → Except RErr (List Value)
  | [] => .ok []
  | v :: rest => do
      let rv ← f v
      let tail ← exceptList f rest
      pure (rv :: tail)

/-- Translation of flatten_items (helpers.rs lines 282-306), parameterised
by the resolver for assign values and the condition evaluator: Assign
items re-emit with resolved values; an IfBlock selects its branch (else
defaults to empty) and splices that branch flattened inline at the
position of the block. -/
def flatten_items (res : Value → Except RErr Value) (cim : Condition → Bool) :
    List ObjectItem → Except RErr (List ObjectItem)
  | [] => .ok []
  | .assign k v :: rest => do
      let rv ← res v
      let tail ← flatten_items res cim rest
      pure (.assign k rv :: tail)
  | .ifBlock cond thenItems elseItems :: rest => do
      let branch ←
        match cim cond, elseItems with
        | true, _ => flatten_items res cim thenItems
        | false, some el => flatten_items res cim el
        | false, none => pure []
      let tail ← flatten_items res cim rest
      pure (branch ++ tail)
  termination_by items => sizeOf items
  decreasing_by all_goals (simp_wf <;> omega)

/-- Head of a reference path (path.get(0)). -/
def pathHead : List String → Option String
  | [] => none
  | p0 :: _ => some p0

/-- One unfolding step of resolve_value_recursively (helpers.rs lines
239-315), parameterised by the recursive resolver res: conditionals pick a
branch and resolve it; references resolve env (two-segment env paths only:
a missing variable is RuntimeError 308), sys and runtime placeholders, or
a document lookup whose result is resolved further — an unresolved
reference is returned unchanged; arrays map the resolver; objects flatten;
every other variant is terminal. -/
def resolveStep (ctx : RunCtx) (res : Value → Except RErr Value) :
    Value → Except RErr Value
  | .conditional cond thenV elseV =>
      res (evaluate_conditional ctx cond thenV elseV)
  | .reference path =>
      if pathHead path == some "env" ∧ path.length = 2 then
        match path with
        | [_, varName] =>
            match ctx.se.env varName with
            | some s => .ok (.str s)
            | none => .error ⟨.runtimeError, some 308⟩
        | _ => .error ⟨.runtimeError, some 308⟩
      else if pathHead path == some "sys" then
        .ok (.str ("sys_placeholder:" ++ joinDots (path.drop 1)))
      else if pathHead path == some "runtime" then
        .ok (.str ("runtime_placeholder:" ++ joinDots (path.drop 1)))
      else
        match resolve_reference ctx.imports path ctx.doc with
        | some target => res target
        | none => .ok (.reference path)
  | .array elems => (exceptList res elems).map .array
  | .object items =>
      (flatten_items res (condition_is_met ctx) items).map .object
  | other => .ok other

/-- Translation of resolve_value_recursively (helpers.rs lines 239-315).
Fuelled: the Rust recursion has no cycle guard and can diverge on cyclic
reference graphs, so each recursive resolution step consumes one unit of
fuel; structural descent into arrays and objects consumes none. -/
def resolve_value_recursively (ctx : RunCtx) : Nat → Value → Except RErr Value
  | 0 => fun _ => .error ⟨.outOfFuel, none⟩
  | fuel + 1 => resolveStep ctx (resolve_value_recursively ctx fuel)

/-! Concrete fixtures used by several theorems below. -/

/-- Ambient lookups with every environment variable and system key
absent. -/
def seNone : SysEnv := ⟨fun _ => none, fun _ => none⟩

/-- Resolution context with no imports, an empty main document and absent
ambient lookups. -/
def ctxNone : RunCtx := ⟨seNone, [], emptyDocument⟩

/-- The document text of the conditional-branch-selection scenario: an app
block whose flag is set by an if/else/endif on the undefined field
debug. -/
def condDocText : String := "app:\nif debug: flag true\nelse: flag false\nendif\nend"

/-! Predicates for the unterminated-regex-literal claim, characterising
the raw input after the opening quote of a regex literal: the scan never
reaches an unescaped closing quote (regexUnterminated), and such a scan
ends exactly on an escape backslash (regexDanglingEscape). -/

/-- The input following an opened regex literal ends before any unescaped
closing double quote. -/
def regexUnterminated : List Char → Bool
  | [] => true
  | c :: r =>
      if c = '"' then false
      else if c = '\\' then
        match r with
        | [] => true
        | _ :: r2 => regexUnterminated r2
      else regexUnterminated r

/-- The input following an opened regex literal ends on a trailing escape
backslash. -/
def regexDanglingEscape : List Char → Bool
  | [] => false
  | c :: r =>
      if c = '"' then false
      else if c = '\\' then
        match r with
        | [] => true
        | _ :: r2 => regexDanglingEscape r2
      else regexDanglingEscape r

/-! Specification-side predicates about the shape of values, used to state
the flattening claims.  hasIfBlock descends through every position of a
value (array elements, object items, interpolated parts, conditional
branches and condition expectations); the resolvedNoIfBlock variant stops
at interpolated values, which resolve_value_recursively returns unchanged
without descending into them. -/

mutual
/-- Some ObjectItem.ifBlock occurs anywhere inside the value. -/
def hasIfBlockV : Value → Bool
  | .array xs => hasIfBlockL xs
  | .object its => hasIfBlockItems its
  | .interpolated xs => hasIfBlockL xs
  | .conditional c t e => hasIfBlockC c || hasIfBlockV t || hasIfBlockO e
  | _ => false
def hasIfBlockL : List Value → Bool
  | [] => false
  | v :: r => hasIfBlockV v || hasIfBlockL r
def hasIfBlockO : Option Value → Bool
  | none => false
  | some v => hasIfBlockV v
def hasIfBlockItems : List ObjectItem → Bool
  | [] => false
  | .assign _ v :: r => hasIfBlockV v || hasIfBlockItems r
  | .ifBlock _ _ _ :: _ => true
def hasIfBlockC : Condition → Bool
  | .equals _ v => hasIfBlockV v
  | .notEquals _ v => hasIfBlockV v
  | _ => false
end

mutual
/-- No ObjectItem.ifBlock occurs at any position reachable without passing
through an interpolated value. -/
def noIfOutsideInterpV : Value → Bool
  | .array xs => noIfOutsideInterpL xs
  | .object its => noIfOutsideInterpItems its
  | .conditional c t e =>
      noIfOutsideInterpC c && noIfOutsideInterpV t && noIfOutsideInterpO e
  | _ => true
def noIfOutsideInterpL : List Value → Bool
  | [] => true
  | v :: r => noIfOutsideInterpV v && noIfOutsideInterpL r
def noIfOutsideInterpO : Option Value → Bool
  | none => true
  | some v => noIfOutsideInterpV v
def noIfOutsideInterpItems : List ObjectItem → Bool
  | [] => true
  | .assign _ v :: r => noIfOutsideInterpV v && noIfOutsideInterpItems r
  | .ifBlock _ _ _ :: _ => false
def noIfOutsideInterpC : Condition → Bool
  | .equals _ v => noIfOutsideInterpV v
  | .notEquals _ v => noIfOutsideInterpV v
  | _ => true
end

/-- The item is a plain Assign. -/
def isAssign : ObjectItem → Bool
  | .assign _ _ => true
  | .ifBlock _ _ _ => false

/-- The concrete object value of the flattening counterexample: an object
whose single assignment carries an interpolated value wrapping a nested
object that still contains an if-block. -/
def interpHiddenIf : Value :=
  .object [.assign "k"
    (.interpolated [.object [.ifBlock (.existsC "zzz") [] none]])]

/-- Path string without any dot. -/
def dotFree (p : String) : Bool := ! p.data.contains '.'

/-! Specification-side predicates for the parser-condition claim: every
condition stored anywhere in a parsed value is Equals or Exists and its
path is dot-free. -/

mutual
/-- Every condition inside the value is Equals or Exists with a dot-free
path. -/
def goodV : Value → Bool
  | .array xs => goodL xs
  | .object its => goodItems its
  | .interpolated xs => goodL xs
  | .conditional c t e => goodC c && goodV t && goodO e
  | _ => true
def goodL : List Value → Bool
  | [] => true
  | v :: r => goodV v && goodL r
def goodO : Option Value → Bool
  | none => true
  | some v => goodV v
def goodItems : List ObjectItem → Bool
  | [] => true
  | .assign _ v :: r => goodV v && goodItems r
  | .ifBlock c t e :: r =>
      goodC c && goodItems t && goodOItems e && goodItems r
def goodOItems : Option (List ObjectItem) → Bool
  | none => true
  | some l => goodItems l
def goodC : Condition → Bool
  | .equals p v => dotFree p && goodV v
  | .existsC p => dotFree p
  | .notEquals _ _ => false
  | .notExistsC _ => false
end

/-- Every value of the associated pairs is good. -/
def goodPairs : List (String × Value) → Bool
  | [] => true
  | p :: r => goodV p.2 && goodPairs r

/-- Every condition anywhere in the document is Equals or Exists with a
dot-free path. -/
def docGood (d : Document) : Bool :=
  goodPairs d.items && goodPairs d.metadata && goodPairs d.globals

/-- Token-buffer invariant of parser states: a buffered Ident token never
contains a dot (the lexer only builds identifiers from alphanumeric,
underscore and hyphen characters). -/
def stTokOK (st : ParseSt) : Prop :=
  ∀ n, st.peekTok = some (.ident n) → n.data.contains '.' = false

/-! Theorems for the individual claims. -/

/-- C1: the lexer of this snapshot does not map the reserved words if,
else, elseif and endif to their dedicated keyword tokens; each of the four
inputs lexes to an Ident token (tokenize_identifier_or_keyword only maps
true, false, end, gather, as, null and None).  This contradicts the claim
(and the Token variants If, Else, ElseIf, EndIf that the parser matches
on), so the claim is recorded as a code bug; this theorem evaluates the
code at the failing inputs. -/
theorem c1_if_family_lexes_as_ident :
    next_token "if".toList = .ok (.ident "if", []) ∧
    next_token "else".toList = .ok (.ident "else", []) ∧
    next_token "elseif".toList = .ok (.ident "elseif", []) ∧
    next_token "endif".toList = .ok (.ident "endif", []) ∧
    next_token "end".toList = .ok (.endKw, []) ∧
    next_token "true".toList = .ok (.boolLit true, []) ∧
    next_token "None".toList = .ok (.nullLit, []) :=
  ⟨rfl, rfl, rfl, rfl, rfl, rfl, rfl⟩

/-- C2: parsing the conditional document text fails with InvalidToken 207
instead of succeeding: since the lexer emits Ident if rather than an If
token (see C1), the block body reads an assignment with key if and value
Reference debug, and then rejects the following colon.  This theorem
evaluates the code at the failing input of the claim. -/
theorem c2_conditional_document_parse_fails :
    parseRune seNone 100 condDocText = .error ⟨.invalidToken, some 207⟩ :=
  rfl

/-- C3, counterexample: with HOME unset, parsing home dollar-env-HOME
succeeds but stores the eagerly resolved empty string (resolve_env uses
unwrap_or_default at parse time), and full value resolution of that field
value then succeeds with the empty string — it does not raise
RuntimeError 308 as the claim states. -/
theorem c3_counterexample :
    (parseRune seNone 100 "home $env.HOME").map (fun p => p.1.globals) =
      .ok [("home", .str "")] ∧
    resolve_value_recursively ctxNone 1 (.str "") = .ok (.str "") :=
  ⟨rfl, rfl⟩

/-- Helper for C3: the parse of home dollar-env-HOME stores the
environment value with empty-string default, uniformly in the ambient
lookups. -/
theorem c3_parse_stores_env_default (se : SysEnv) :
    (parseRune se 100 "home $env.HOME").map (fun p => p.1.globals) =
      .ok [("home", .str ((se.env "HOME").getD ""))] :=
  rfl

/-- C3, amended: parsing home dollar-env-HOME succeeds even when HOME is
unset, but the dollar reference is resolved eagerly at parse time with the
empty string as default, so the stored value is String empty and full
value resolution of it succeeds with the empty string.  RuntimeError 308
arises at resolution time only for a deferred Reference env HOME value
(as produced by the bare reference syntax env.HOME). -/
theorem c3_amended (se : SysEnv) (ctx : RunCtx) (fuel : Nat)
    (h : se.env "HOME" = none) (hc : ctx.se = se) :
    (parseRune se 100 "home $env.HOME").map (fun p => p.1.globals) =
      .ok [("home", .str "")] ∧
    resolve_value_recursively ctx (fuel + 1) (.str "") = .ok (.str "") ∧
    resolve_value_recursively ctx (fuel + 1) (.reference ["env", "HOME"]) =
      .error ⟨.runtimeError, some 308⟩ := by
  refine ⟨?_, rfl, ?_⟩
  · rw [c3_parse_stores_env_default se, h]; rfl
  · show resolveStep ctx (resolve_value_recursively ctx fuel)
      (.reference ["env", "HOME"]) = .error ⟨.runtimeError, some 308⟩
    simp [resolveStep, pathHead, hc, h]

/-- C3, witness: the amended theorem applied to the all-absent concrete
context. -/
theorem c3_amended_witness :
    (parseRune seNone 100 "home $env.HOME").map (fun p => p.1.globals) =
      .ok [("home", .str "")] ∧
    resolve_value_recursively ctxNone 1 (.str "") = .ok (.str "") ∧
    resolve_value_recursively ctxNone 1 (.reference ["env", "HOME"]) =
      .error ⟨.runtimeError, some 308⟩ :=
  c3_amended seNone ctxNone 0 rfl rfl

/-- C5: when the first path segment is an import alias, resolve_reference
switches to the imported document and drops the segment — resolving the
two-segment path x.y equals resolving the path y in the imported document
with an empty import table — even when the current document also has a
field named x (the hypothesis hx); the import always wins. -/
theorem c5_import_alias_precedence (imps : List (String × Document))
    (doc impDoc : Document) (x y : String) (vx : Value)
    (himp : lookupImport imps x = some impDoc)
    (hx : findFirstSegment doc x = some vx) :
    resolve_reference imps [x, y] doc = resolve_reference [] [y] impDoc := by
  simp only [resolve_reference, himp]
  simp [lookupImport]

/-- C5, witness: concrete documents in which both a main-document field x
and an import alias x exist; resolution of x.y routes through the import
and returns the imported value. -/
theorem c5_witness :
    resolve_reference [("x", ⟨[("y", .str "imported-side")], [], []⟩)]
        ["x", "y"]
        ⟨[("x", .object [.assign "y" (.str "doc-side")])], [], []⟩ =
      resolve_reference [] ["y"] ⟨[("y", .str "imported-side")], [], []⟩ ∧
    resolve_reference [] ["y"] (⟨[("y", .str "imported-side")], [], []⟩ : Document) =
      some (.str "imported-side") :=
  ⟨c5_import_alias_precedence _ _ _ "x" "y" (.object [.assign "y" (.str "doc-side")])
      rfl rfl, rfl⟩

/-- C6: condition evaluation is total — condition_is_met lands in Bool by
construction, with dollar-resolver errors folded into an unresolved path
by the toOption inside resolvePathValue — and its four variants follow the
absence-folding semantics: Equals holds exactly when the path resolves to
a structurally equal value (unresolved folds to false), NotEquals holds
exactly when the path is unresolved or resolves to a differing value,
Exists exactly when resolution succeeds, NotExists exactly when it
fails. -/
theorem c6_condition_semantics (ctx : RunCtx) (p : String) (e : Value) :
    (condition_is_met ctx (.equals p e) = true ↔
      ∃ a, resolvePathValue ctx p = some a ∧ valueBeq a e = true) ∧
    (condition_is_met ctx (.notEquals p e) = true ↔
      (resolvePathValue ctx p = none ∨
        ∃ a, resolvePathValue ctx p = some a ∧ valueBeq a e = false)) ∧
    (condition_is_met ctx (.existsC p) = true ↔
      (resolvePathValue ctx p).isSome = true) ∧
    (condition_is_met ctx (.notExistsC p) = true ↔
      resolvePathValue ctx p = none) := by
  cases h : resolvePathValue ctx p with
  | none => simp [condition_is_met, h]
  | some a => simp [condition_is_met, h]

/-- Scan-level dichotomy for unterminated regex input: the scan ends as
eofBackslash when the input ends on an escape backslash and as eofPlain
otherwise; it never reaches the closed outcome. -/
theorem regexScan_unterminated (s : List Char) (acc : String)
    (h : regexUnterminated s = true) :
    (regexDanglingEscape s = true ∧ ∃ c, regexScan s acc = .eofBackslash c) ∨
    (regexDanglingEscape s = false ∧ ∃ c, regexScan s acc = .eofPlain c) := by
  induction s using regexUnterminated.induct generalizing acc with
  | case1 => exact Or.inr ⟨rfl, acc, rfl⟩
  | case2 r2 =>
      rw [regexUnterminated.eq_def] at h
      simp at h
  | case3 hq => exact Or.inl ⟨rfl, acc, rfl⟩
  | case4 e r2 hq ih =>
      rw [regexUnterminated.eq_def] at h
      simp at h
      rcases ih ((acc.push '\\').push e) h with ⟨hd, cc, hs⟩ | ⟨hd, cc, hs⟩
      · refine Or.inl ⟨?_, cc, ?_⟩
        · rw [regexDanglingEscape.eq_def]; simpa using hd
        · rw [regexScan.eq_def]; simpa using hs
      · refine Or.inr ⟨?_, cc, ?_⟩
        · rw [regexDanglingEscape.eq_def]; simpa using hd
        · rw [regexScan.eq_def]; simpa using hs
  | case5 e r2 hq hb ih =>
      rw [regexUnterminated.eq_def] at h
      simp [hq, hb] at h
      rcases ih (acc.push e) h with ⟨hd, cc, hs⟩ | ⟨hd, cc, hs⟩
      · refine Or.inl ⟨?_, cc, ?_⟩
        · rw [regexDanglingEscape.eq_def]; simpa [hq, hb] using hd
        · rw [regexScan.eq_def]; simpa [hq, hb] using hs
      · refine Or.inr ⟨?_, cc, ?_⟩
        · rw [regexDanglingEscape.eq_def]; simpa [hq, hb] using hd
        · rw [regexScan.eq_def]; simpa [hq, hb] using hs

/-- C7, counterexample: the regex literal input r-quote-abc ends without a
closing quote and without a trailing backslash, yet the lexer returns a
Regex token rather than the UnclosedString error the claim requires. -/
theorem c7_counterexample :
    regexUnterminated "abc".toList = true ∧
    next_token "r\"abc".toList = .ok (.regexLit "abc", []) :=
  ⟨rfl, rfl⟩

/-- C7, amended: for input that ends before an unescaped closing quote,
tokenize_regex_literal raises UnclosedString 103 only in the
trailing-backslash case; in the non-trailing-backslash case it silently
returns a Regex token holding the remaining input. -/
theorem c7_amended (s : List Char) (h : regexUnterminated s = true) :
    (regexDanglingEscape s = true →
      tokenize_regex_literal s = .error ⟨.unclosedString, some 103⟩) ∧
    (regexDanglingEscape s = false →
      ∃ content, tokenize_regex_literal s = .ok (.regexLit content, [])) := by
  constructor
  · intro hd
    rcases regexScan_unterminated s "" h with ⟨_, c, hs⟩ | ⟨hd2, _, _⟩
    · simp [tokenize_regex_literal, hs]
    · rw [hd] at hd2; exact absurd hd2 (by simp)
  · intro hd
    rcases regexScan_unterminated s "" h with ⟨hd2, _, _⟩ | ⟨_, c, hs⟩
    · rw [hd] at hd2; exact absurd hd2 (by simp)
    · exact ⟨c, by simp [tokenize_regex_literal, hs]⟩

/-- C7, witness: the amended theorem applied at two concrete inputs — a
trailing-backslash unterminated regex errors with code 103, and a plain
unterminated regex is accepted as a token. -/
theorem c7_amended_witness :
    tokenize_regex_literal ['a', '\\'] = .error ⟨.unclosedString, some 103⟩ ∧
    ∃ content, tokenize_regex_literal "abc".toList = .ok (.regexLit content, []) :=
  ⟨(c7_amended ['a', '\\'] rfl).1 rfl, (c7_amended "abc".toList rfl).2 rfl⟩

/-- C10: the end-of-input quirks of tokenize_string, at the level of its
scan outcome.  First, a properly terminated string whose closing quote is
the last input character (the scan closes with empty rest) and whose
decoded content does not end with the quote character is reported as
UnclosedString 103; second, an unterminated string (the scan falls off the
end of the input) whose decoded content ends with the quote character is
accepted as a String token; third, for contrast, a terminated string with
at least one character after the closing quote is always accepted. -/
theorem c10_string_eof_quirks (q : Char) (s : List Char) (c : String)
    (r : List Char) :
    (stringScan q s "" = .closed c [] → strEndsWith c q = false →
      tokenize_string q s = .error ⟨.unclosedString, some 103⟩) ∧
    (stringScan q s "" = .eofPlain c → strEndsWith c q = true →
      tokenize_string q s = .ok (.strLit c, [])) ∧
    (stringScan q s "" = .closed c r → r ≠ [] →
      tokenize_string q s = .ok (.strLit c, r)) := by
  refine ⟨?_, ?_, ?_⟩
  · intro hs he
    simp [tokenize_string, hs, he]
  · intro hs he
    simp [tokenize_string, hs, he]
  · intro hs hr
    simp [tokenize_string, hs, hr]

/-- C10, witness: the quirk theorem applied at concrete inputs — the
input quote-abc-quote as the whole input errors with 103 even though it is
terminated; the unterminated input quote-ab-backslash-quote decodes to
content ending in the quote and is accepted; and a terminated string with
a trailing space is accepted. -/
theorem c10_witness :
    tokenize_string '"' ['a', 'b', 'c', '"'] =
      .error ⟨.unclosedString, some 103⟩ ∧
    tokenize_string '"' ['a', 'b', '\\', '"'] = .ok (.strLit "ab\"", []) ∧
    tokenize_string '"' ['a', '"', ' '] = .ok (.strLit "a", [' ']) :=
  ⟨(c10_string_eof_quirks '"' ['a', 'b', 'c', '"'] "abc" []).1 rfl rfl,
   (c10_string_eof_quirks '"' ['a', 'b', '\\', '"'] "ab\"" []).2.1 rfl rfl,
   (c10_string_eof_quirks '"' ['a', '"', ' '] "a" [' ']).2.2 rfl (by simp)⟩

/-! Inversion and congruence lemmas for the fallible combinators used by
the value resolver. -/

/-- Bind inversion for Except. -/
theorem exceptBind_ok {α β : Type} {x : Except RErr α} {f : α → Except RErr β}
    {b : β} (h : (x >>= f) = .ok b) : ∃ a, x = .ok a ∧ f a = .ok b := by
  cases x with
  | error e => simp [Bind.bind, Except.bind] at h
  | ok a => exact ⟨a, rfl, by simpa [Bind.bind, Except.bind] using h⟩

/-- Map inversion for Except. -/
theorem exceptMap_ok {α β : Type} {x : Except RErr α} {f : α → β} {b : β}
    (h : Except.map f x = .ok b) : ∃ a, x = .ok a ∧ f a = b := by
  cases x with
  | error e => simp [Except.map] at h
  | ok a => exact ⟨a, rfl, by simpa [Except.map] using h⟩

/-- Every element of a successful exceptList output comes from a
successful application of the function. -/
theorem exceptList_ok_mem (f : Value → Except RErr Value) :
    ∀ xs rs, exceptList f xs = .ok rs → ∀ y ∈ rs, ∃ x, f x = .ok y := by
  intro xs
  induction xs with
  | nil =>
      intro rs h y hy
      simp [exceptList] at h
      subst h
      simp at hy
  | cons x xs ih =>
      intro rs h y hy
      rw [exceptList] at h
      obtain ⟨rv, hrv, h⟩ := exceptBind_ok h
      obtain ⟨tail, htail, h⟩ := exceptBind_ok h
      simp [Pure.pure, Except.pure] at h
      subst h
      rcases List.mem_cons.mp hy with hy | hy
      · exact ⟨x, hy ▸ hrv⟩
      · exact ih tail htail y hy

/-- exceptList is the identity on lists whose elements the function fixes. -/
theorem exceptList_fix (f : Value → Except RErr Value) :
    ∀ rs, (∀ y ∈ rs, f y = .ok y) → exceptList f rs = .ok rs := by
  intro rs
  induction rs with
  | nil => intro _; simp [exceptList]
  | cons y ys ih =>
      intro hall
      rw [exceptList]
      rw [hall y (by simp)]
      rw [ih (fun z hz => hall z (by simp [hz]))]
      rfl

/-- exceptList success is preserved by enlarging the function success-wise. -/
theorem exceptList_mono {f g : Value → Except RErr Value}
    (hfg : ∀ x y, f x = .ok y → g x = .ok y) :
    ∀ xs rs, exceptList f xs = .ok rs → exceptList g xs = .ok rs := by
  intro xs
  induction xs with
  | nil => intro rs h; exact h
  | cons x xs ih =>
      intro rs h
      rw [exceptList] at h ⊢
      obtain ⟨rv, hrv, h⟩ := exceptBind_ok h
      obtain ⟨tail, htail, h⟩ := exceptBind_ok h
      simp [Pure.pure, Except.pure] at h
      rw [hfg x rv hrv, ih tail htail]
      simpa [Bind.bind, Except.bind, Pure.pure, Except.pure] using h

/-- Every item of a successful flatten_items output is an Assign whose
value is a successful output of the resolving function. -/
theorem flatten_items_ok_mem (res : Value → Except RErr Value)
    (cim : Condition → Bool) (items : List ObjectItem) :
    ∀ out, flatten_items res cim items = .ok out →
      ∀ it ∈ out, ∃ k v rv, it = .assign k rv ∧ res v = .ok rv := by
  induction items using flatten_items.induct res cim with
  | case1 =>
      intro out h it hit
      simp [flatten_items] at h
      subst h
      simp at hit
  | case2 k v rest ih =>
      intro out h it hit
      rw [flatten_items] at h
      obtain ⟨rv, hrv, h⟩ := exceptBind_ok h
      obtain ⟨tail, htail, h⟩ := exceptBind_ok h
      simp [Pure.pure, Except.pure] at h
      subst h
      rcases List.mem_cons.mp hit with hit | hit
      · exact ⟨k, v, rv, hit, hrv⟩
      · exact ih tail htail it hit
  | case3 cond ti ei rest hc ihRest ihThen =>
      intro out h it hit
      rw [flatten_items.eq_3 _ _ _ _ _ _ hc] at h
      obtain ⟨branch, hbr, h⟩ := exceptBind_ok h
      obtain ⟨tail, htail, h⟩ := exceptBind_ok h
      simp [Pure.pure, Except.pure] at h
      subst h
      rcases List.mem_append.mp hit with hit | hit
      · exact ihThen branch hbr it hit
      · exact ihRest tail htail it hit
  | case4 cond ti rest el hc ihRest ihEl =>
      intro out h it hit
      rw [flatten_items.eq_4 _ _ _ _ _ _ hc] at h
      obtain ⟨branch, hbr, h⟩ := exceptBind_ok h
      obtain ⟨tail, htail, h⟩ := exceptBind_ok h
      simp [Pure.pure, Except.pure] at h
      subst h
      rcases List.mem_append.mp hit with hit | hit
      · exact ihEl branch hbr it hit
      · exact ihRest tail htail it hit
  | case5 cond ti rest hc ihRest =>
      intro out h it hit
      rw [flatten_items.eq_5 _ _ _ _ _ hc] at h
      obtain ⟨branch, hbr, h⟩ := exceptBind_ok h
      obtain ⟨tail, htail, h⟩ := exceptBind_ok h
      simp [Pure.pure, Except.pure] at hbr
      subst hbr
      simp [Pure.pure, Except.pure] at h
      subst h
      exact ihRest tail htail it hit

/-- flatten_items is the identity on item lists that are all Assigns whose
values the resolving function fixes (conditions are then never
consulted). -/
theorem flatten_items_fix (res : Value → Except RErr Value)
    (cim : Condition → Bool) :
    ∀ out, (∀ it ∈ out, ∃ k rv, it = .assign k rv ∧ res rv = .ok rv) →
      flatten_items res cim out = .ok out := by
  intro out
  induction out with
  | nil => intro _; simp [flatten_items]
  | cons it rest ih =>
      intro hall
      obtain ⟨k, rv, hit, hres⟩ := hall it (by simp)
      subst hit
      rw [flatten_items]
      rw [hres, ih (fun it2 hit2 => hall it2 (by simp [hit2]))]
      rfl

/-- flatten_items success is preserved by enlarging the resolving function
success-wise. -/
theorem flatten_items_mono {f g : Value → Except RErr Value}
    (cim : Condition → Bool) (hfg : ∀ x y, f x = .ok y → g x = .ok y) :
    ∀ items out, flatten_items f cim items = .ok out →
      flatten_items g cim items = .ok out := by
  intro items
  induction items using flatten_items.induct f cim with
  | case1 => intro out h; simpa [flatten_items] using h
  | case2 k v rest ih =>
      intro out h
      rw [flatten_items] at h ⊢
      obtain ⟨rv, hrv, h⟩ := exceptBind_ok h
      obtain ⟨tail, htail, h⟩ := exceptBind_ok h
      rw [hfg v rv hrv, ih tail htail]
      simpa [Bind.bind, Except.bind] using h
  | case3 cond ti ei rest hc ihRest ihThen =>
      intro out h
      rw [flatten_items.eq_3 _ _ _ _ _ _ hc] at h ⊢
      obtain ⟨branch, hbr, h⟩ := exceptBind_ok h
      obtain ⟨tail, htail, h⟩ := exceptBind_ok h
      rw [ihThen branch hbr]
      show (do
        let tail ← flatten_items g cim rest
        pure (branch ++ tail) : Except RErr (List ObjectItem)) = .ok out
      rw [ihRest tail htail]
      simpa [Bind.bind, Except.bind] using h
  | case4 cond ti rest el hc ihRest ihEl =>
      intro out h
      rw [flatten_items.eq_4 _ _ _ _ _ _ hc] at h ⊢
      obtain ⟨branch, hbr, h⟩ := exceptBind_ok h
      obtain ⟨tail, htail, h⟩ := exceptBind_ok h
      rw [ihEl branch hbr]
      show (do
        let tail ← flatten_items g cim rest
        pure (branch ++ tail) : Except RErr (List ObjectItem)) = .ok out
      rw [ihRest tail htail]
      simpa [Bind.bind, Except.bind] using h
  | case5 cond ti rest hc ihRest =>
      intro out h
      rw [flatten_items.eq_5 _ _ _ _ _ hc] at h ⊢
      obtain ⟨branch, hbr, h⟩ := exceptBind_ok h
      obtain ⟨tail, htail, h⟩ := exceptBind_ok h
      simp [Pure.pure, Except.pure] at hbr
      subst hbr
      show (do
        let tail ← flatten_items g cim rest
        pure (([] : List ObjectItem) ++ tail) : Except RErr (List ObjectItem)) = .ok out
      rw [ihRest tail htail]
      simpa [Bind.bind, Except.bind] using h

/-- A list of length two is literally a two-element list. -/
theorem length_two_form (l : List String) (h : l.length = 2) :
    ∃ a b, l = [a, b] := by
  rcases l with _ | ⟨a, _ | ⟨b, _ | _⟩⟩ <;> simp_all

/-- Success of one resolveStep is preserved by enlarging the recursive
resolver success-wise. -/
theorem resolveStep_mono (ctx : RunCtx) {f g : Value → Except RErr Value}
    (hfg : ∀ x y, f x = .ok y → g x = .ok y) :
    ∀ v r, resolveStep ctx f v = .ok r → resolveStep ctx g v = .ok r := by
  intro v r h
  cases v with
  | conditional cond t e =>
      simp only [resolveStep] at h ⊢
      exact hfg _ _ h
  | reference path =>
      simp only [resolveStep] at h ⊢
      by_cases h1 : (pathHead path == some "env") = true ∧ path.length = 2
      · rwa [if_pos h1] at h ⊢
      · rw [if_neg h1] at h ⊢
        by_cases h2 : (pathHead path == some "sys") = true
        · rwa [if_pos h2] at h ⊢
        · rw [if_neg h2] at h ⊢
          by_cases h3 : (pathHead path == some "runtime") = true
          · rwa [if_pos h3] at h ⊢
          · rw [if_neg h3] at h ⊢
            cases hrr : resolve_reference ctx.imports path ctx.doc with
            | some target => rw [hrr] at h; exact hfg _ _ h
            | none => rw [hrr] at h; exact h
  | array xs =>
      simp only [resolveStep] at h ⊢
      obtain ⟨rs, hrs, hb⟩ := exceptMap_ok h
      rw [exceptList_mono hfg _ _ hrs]
      simp [Except.map, hb]
  | object items =>
      simp only [resolveStep] at h ⊢
      obtain ⟨out, hout, hb⟩ := exceptMap_ok h
      rw [flatten_items_mono _ hfg _ _ hout]
      simp [Except.map, hb]
  | str s => exact h
  | num q => exact h
  | bool b => exact h
  | regex src => exact h
  | interpolated parts => exact h
  | null => exact h

/-- Fuel monotonicity of value resolution: a successful resolution stays
successful and unchanged with one more unit of fuel. -/
theorem resolve_mono (ctx : RunCtx) :
    ∀ fuel v r, resolve_value_recursively ctx fuel v = .ok r →
      resolve_value_recursively ctx (fuel + 1) v = .ok r := by
  intro fuel
  induction fuel with
  | zero => intro v r h; simp [resolve_value_recursively] at h
  | succ fuel ih =>
      intro v r h
      rw [resolve_value_recursively] at h ⊢
      exact resolveStep_mono ctx ih v r h

/-- Elementwise guarded ifblock-freedom gives it for the list. -/
theorem noIfL_of_mem : ∀ xs : List Value,
    (∀ v ∈ xs, noIfOutsideInterpV v = true) → noIfOutsideInterpL xs = true := by
  intro xs
  induction xs with
  | nil => intro _; simp [noIfOutsideInterpL]
  | cons v r ih =>
      intro hall
      simp only [noIfOutsideInterpL, Bool.and_eq_true]
      exact ⟨hall v (by simp), ih (fun z hz => hall z (by simp [hz]))⟩

/-- An all-Assign item list with guarded-free values is guarded-free. -/
theorem noIfItems_of_assigns : ∀ out : List ObjectItem,
    (∀ it ∈ out, ∃ k rv, it = .assign k rv ∧ noIfOutsideInterpV rv = true) →
    noIfOutsideInterpItems out = true := by
  intro out
  induction out with
  | nil => intro _; simp [noIfOutsideInterpItems]
  | cons it rest ih =>
      intro hall
      obtain ⟨k, rv, rfl, hrv⟩ := hall it (by simp)
      simp only [noIfOutsideInterpItems, Bool.and_eq_true]
      exact ⟨hrv, ih (fun z hz => hall z (by simp [hz]))⟩

/-- One resolveStep whose recursive resolver only outputs values free of
if-blocks outside interpolations also only outputs such values. -/
theorem resolveStep_noIf (ctx : RunCtx) {f : Value → Except RErr Value}
    (hf : ∀ x y, f x = .ok y → noIfOutsideInterpV y = true) :
    ∀ v r, resolveStep ctx f v = .ok r → noIfOutsideInterpV r = true := by
  intro v r h
  cases v with
  | conditional cond t e =>
      simp only [resolveStep] at h
      exact hf _ _ h
  | reference path =>
      simp only [resolveStep] at h
      by_cases h1 : (pathHead path == some "env") = true ∧ path.length = 2
      · rw [if_pos h1] at h
        split at h
        · split at h
          · injection h with h; subst h; rfl
          · exact absurd h (by simp)
        · exact absurd h (by simp)
      · rw [if_neg h1] at h
        by_cases h2 : (pathHead path == some "sys") = true
        · rw [if_pos h2] at h
          injection h with h
          subst h
          rfl
        · rw [if_neg h2] at h
          by_cases h3 : (pathHead path == some "runtime") = true
          · rw [if_pos h3] at h
            injection h with h
            subst h
            rfl
          · rw [if_neg h3] at h
            split at h
            · exact hf _ _ h
            · injection h with h
              subst h
              rfl
  | array xs =>
      simp only [resolveStep] at h
      obtain ⟨rs, hrs, hb⟩ := exceptMap_ok h
      subst hb
      simp only [noIfOutsideInterpV]
      apply noIfL_of_mem
      intro y hy
      obtain ⟨x, hx⟩ := exceptList_ok_mem f xs rs hrs y hy
      exact hf x y hx
  | object items =>
      simp only [resolveStep] at h
      obtain ⟨out, hout, hb⟩ := exceptMap_ok h
      subst hb
      simp only [noIfOutsideInterpV]
      apply noIfItems_of_assigns
      intro it hit
      obtain ⟨k, v2, rv, rfl, hres⟩ :=
        flatten_items_ok_mem f (condition_is_met ctx) items out hout it hit
      exact ⟨k, rv, rfl, hf v2 rv hres⟩
  | str s => simp only [resolveStep] at h; injection h with h; subst h; rfl
  | num q => simp only [resolveStep] at h; injection h with h; subst h; rfl
  | bool b => simp only [resolveStep] at h; injection h with h; subst h; rfl
  | regex src => simp only [resolveStep] at h; injection h with h; subst h; rfl
  | interpolated parts =>
      simp only [resolveStep] at h; injection h with h; subst h; rfl
  | null => simp only [resolveStep] at h; injection h with h; subst h; rfl

/-- Every successful output of resolve_value_recursively is free of
if-blocks outside interpolated values. -/
theorem resolve_ok_noIf (ctx : RunCtx) :
    ∀ fuel v r, resolve_value_recursively ctx fuel v = .ok r →
      noIfOutsideInterpV r = true := by
  intro fuel
  induction fuel with
  | zero => intro v r h; simp [resolve_value_recursively] at h
  | succ fuel ih =>
      intro v r h
      rw [resolve_value_recursively] at h
      exact resolveStep_noIf ctx ih v r h

/-- C4, counterexample: resolve_value_recursively succeeds on an object
whose single Assign value is an Interpolated wrapping a nested object with
an if-block; the result (the input itself, since interpolated values are
returned unchanged) still contains an ObjectItem.ifBlock inside a nested
object, contradicting the claim as stated. -/
theorem c4_counterexample :
    resolve_value_recursively ctxNone 2 interpHiddenIf = .ok interpHiddenIf ∧
    hasIfBlockV interpHiddenIf = true := by
  constructor
  · simp [resolve_value_recursively, resolveStep, flatten_items, interpHiddenIf]
    rfl
  · simp [interpHiddenIf, hasIfBlockV, hasIfBlockItems, hasIfBlockL]

/-- C4, amended: for every object input on which resolve_value_recursively
succeeds, the result is an object all of whose top-level items are Assign,
and no ObjectItem.ifBlock remains at any position reachable without
passing through an Interpolated value (each if-block was replaced by its
selected branch spliced inline); values inside Interpolated fragments are
returned untouched and may retain if-blocks. -/
theorem c4_amended (ctx : RunCtx) (fuel : Nat) (items : List ObjectItem)
    (r : Value)
    (h : resolve_value_recursively ctx fuel (.object items) = .ok r) :
    (∃ out, r = .object out ∧ out.all isAssign = true) ∧
    noIfOutsideInterpV r = true := by
  refine ⟨?_, resolve_ok_noIf ctx fuel _ r h⟩
  cases fuel with
  | zero => simp [resolve_value_recursively] at h
  | succ fuel =>
      rw [resolve_value_recursively] at h
      simp only [resolveStep] at h
      obtain ⟨out, hout, hb⟩ := exceptMap_ok h
      refine ⟨out, hb.symm, ?_⟩
      rw [List.all_eq_true]
      intro it hit
      obtain ⟨k, v2, rv, rfl, _⟩ :=
        flatten_items_ok_mem _ _ items out hout it hit
      rfl

/-- C4, witness: the amended theorem applied to a concrete object with an
if-block whose condition is unresolvable, so the else branch is spliced. -/
theorem c4_amended_witness :
    (∃ out,
      (Value.object [.assign "name" (.str "A"), .assign "flag" (.bool false)]) =
        .object out ∧ out.all isAssign = true) ∧
    noIfOutsideInterpV
      (.object [.assign "name" (.str "A"), .assign "flag" (.bool false)]) = true :=
  c4_amended ctxNone 2
    [.assign "name" (.str "A"),
     .ifBlock (.existsC "debug") [.assign "flag" (.bool true)]
       (some [.assign "flag" (.bool false)])]
    (.object [.assign "name" (.str "A"), .assign "flag" (.bool false)])
    (by simp [resolve_value_recursively, resolveStep, flatten_items,
              condition_is_met, resolvePathValue, splitDots, splitAtDots,
              resolve_reference, lookupImport, findFirstSegment,
              emptyDocument, ctxNone, seNone]
        rfl)

/-- C8: value resolution is idempotent on its results — a successful
resolve_value_recursively run, repeated on its own output with the same
context and the same fuel, succeeds and returns the output unchanged. -/
theorem c8_resolution_idempotent (ctx : RunCtx) (fuel : Nat) (v r : Value)
    (h : resolve_value_recursively ctx fuel v = .ok r) :
    resolve_value_recursively ctx fuel r = .ok r := by
  induction fuel generalizing v r with
  | zero => simp [resolve_value_recursively] at h
  | succ fuel ih =>
      rw [resolve_value_recursively] at h ⊢
      cases v with
      | conditional cond t e =>
          simp only [resolveStep] at h
          have hr := resolve_mono ctx fuel r r (ih _ _ h)
          rwa [resolve_value_recursively] at hr
      | reference path =>
          simp only [resolveStep] at h
          by_cases h1 : (pathHead path == some "env") = true ∧ path.length = 2
          · rw [if_pos h1] at h
            split at h
            · split at h
              · injection h with h; subst h; rfl
              · exact absurd h (by simp)
            · exact absurd h (by simp)
          · rw [if_neg h1] at h
            by_cases h2 : (pathHead path == some "sys") = true
            · rw [if_pos h2] at h
              injection h with h
              subst h
              rfl
            · rw [if_neg h2] at h
              by_cases h3 : (pathHead path == some "runtime") = true
              · rw [if_pos h3] at h
                injection h with h
                subst h
                rfl
              · rw [if_neg h3] at h
                cases hrr : resolve_reference ctx.imports path ctx.doc with
                | some target =>
                    rw [hrr] at h
                    have hr := resolve_mono ctx fuel r r (ih _ _ h)
                    rwa [resolve_value_recursively] at hr
                | none =>
                    rw [hrr] at h
                    injection h with h
                    subst h
                    simp only [resolveStep]
                    rw [if_neg h1, if_neg h2, if_neg h3, hrr]
      | array xs =>
          simp only [resolveStep] at h
          obtain ⟨rs, hrs, hb⟩ := exceptMap_ok h
          subst hb
          simp only [resolveStep]
          rw [exceptList_fix _ rs
            (fun y hy => by
              obtain ⟨x, hx⟩ := exceptList_ok_mem _ xs rs hrs y hy
              exact ih x y hx)]
          rfl
      | object items =>
          simp only [resolveStep] at h
          obtain ⟨out, hout, hb⟩ := exceptMap_ok h
          subst hb
          simp only [resolveStep]
          rw [flatten_items_fix _ _ out
            (fun it hit => by
              obtain ⟨k, v2, rv, rfl, hres⟩ :=
                flatten_items_ok_mem _ _ items out hout it hit
              exact ⟨k, rv, rfl, ih v2 rv hres⟩)]
          rfl
      | str s => injection h with h; subst h; rfl
      | num q => injection h with h; subst h; rfl
      | bool b => injection h with h; subst h; rfl
      | regex src => injection h with h; subst h; rfl
      | interpolated parts => injection h with h; subst h; rfl
      | null => injection h with h; subst h; rfl

/-- C8, witness: the idempotence theorem applied to a concrete successful
resolution that exercises reference resolution and if-block splicing. -/
theorem c8_witness :
    resolve_value_recursively ctxNone 2
      (.object [.assign "name" (.str "A"), .assign "flag" (.bool false)]) =
    .ok (.object [.assign "name" (.str "A"), .assign "flag" (.bool false)]) :=
  c8_resolution_idempotent ctxNone 2
    (.object [.assign "name" (.str "A"),
      .ifBlock (.existsC "debug") [.assign "flag" (.bool true)]
        (some [.assign "flag" (.bool false)])])
    (.object [.assign "name" (.str "A"), .assign "flag" (.bool false)])
    (by simp [resolve_value_recursively, resolveStep, flatten_items,
              condition_is_met, resolvePathValue, splitDots, splitAtDots,
              resolve_reference, lookupImport, findFirstSegment,
              emptyDocument, ctxNone, seNone]
        rfl)

/-! Lemmas toward the parser-condition claim: identifier tokens produced
by the lexer never contain a dot, parser states preserve that invariant,
and every condition the parser builds is Equals or Exists over such an
identifier. -/

/-- Characters collected by the identifier scan are identifier
characters. -/
theorem identScan_chars : ∀ (l : List Char) (acc : String),
    (∀ c ∈ acc.data, isIdentChar c = true) →
    ∀ c ∈ (identScan l acc).1.data, isIdentChar c = true := by
  intro l
  induction l with
  | nil =>
      intro acc hacc c hc
      rw [identScan] at hc
      exact hacc c hc
  | cons x r ih =>
      intro acc hacc c hc
      rw [identScan] at hc
      by_cases hx : isIdentChar x = true
      · rw [if_pos hx] at hc
        refine ih (acc.push x) ?_ c hc
        intro d hd
        rw [String.push] at hd
        rcases List.mem_append.mp hd with hd | hd
        · exact hacc d hd
        · simp at hd
          exact hd ▸ hx
      · rw [if_neg hx] at hc
        exact hacc c hc

/-- A string of identifier characters contains no dot. -/
theorem identchars_dotfree (n : String)
    (h : ∀ c ∈ n.data, isIdentChar c = true) :
    n.data.contains '.' = false := by
  by_contra hc
  rw [Bool.not_eq_false] at hc
  have : ('.' : Char) ∈ n.data := by
    simpa using hc
  have := h _ this
  simp [isIdentChar] at this

/-- The string tokenizer never yields an identifier token. -/
theorem tokenize_string_not_ident (q : Char) (s : List Char) (n : String)
    (rest : List Char) : tokenize_string q s ≠ .ok (.ident n, rest) := by
  intro h
  rw [tokenize_string] at h
  split at h
  · split at h <;> simp at h
  · split at h <;> simp at h
  · simp at h

/-- The regex tokenizer never yields an identifier token. -/
theorem tokenize_regex_literal_not_ident (s : List Char) (n : String)
    (rest : List Char) : tokenize_regex_literal s ≠ .ok (.ident n, rest) := by
  intro h
  rw [tokenize_regex_literal] at h
  split at h <;> simp at h

/-- The keyword table yields an identifier only for the scanned run
itself. -/
theorem keywordToken_ident (s n : String) (h : keywordToken s = .ident n) :
    n = s := by
  rw [keywordToken] at h
  split_ifs at h <;> simp at h
  exact h.symm

/-- An identifier token produced by the lexer contains no dot. -/
theorem next_token_ident_dotfree (b : Bool) (s : List Char) (n : String)
    (rest : List Char)
    (h : next_token_with_flag b s = .ok (.ident n, rest)) :
    n.data.contains '.' = false := by
  rw [next_token_with_flag] at h
  split at h
  · simp at h
  · rename_i c r hskip
    by_cases h1 : c = '\n'
    · rw [if_pos h1] at h; simp at h
    rw [if_neg h1] at h
    by_cases h2 : c = ':'
    · rw [if_pos h2] at h; simp at h
    rw [if_neg h2] at h
    by_cases h3 : c = '='
    · rw [if_pos h3] at h; simp at h
    rw [if_neg h3] at h
    by_cases h4 : c = '['
    · rw [if_pos h4] at h; simp at h
    rw [if_neg h4] at h
    by_cases h5 : c = ']'
    · rw [if_pos h5] at h; simp at h
    rw [if_neg h5] at h
    by_cases h6 : c = '$'
    · rw [if_pos h6] at h; simp at h
    rw [if_neg h6] at h
    by_cases h7 : c = '.'
    · rw [if_pos h7] at h; simp at h
    rw [if_neg h7] at h
    by_cases h8 : c = '@'
    · rw [if_pos h8] at h; simp at h
    rw [if_neg h8] at h
    by_cases h9 : c = 'r'
    · rw [if_pos h9] at h
      split at h
      · exact absurd h (tokenize_regex_literal_not_ident _ _ _)
      · simp only [Except.ok.injEq, Prod.mk.injEq, Token.ident.injEq] at h
        refine identchars_dotfree n ?_
        rw [← h.1]
        exact identScan_chars r "r" (by decide)
    rw [if_neg h9] at h
    by_cases h10 : c = '"' ∨ c = '\''
    · rw [if_pos h10] at h
      exact absurd h (tokenize_string_not_ident _ _ _ _)
    rw [if_neg h10] at h
    by_cases h11 : c.isDigit = true
    · rw [if_pos h11] at h
      repeat' split at h
      all_goals simp at h
    rw [if_neg h11] at h
    by_cases h12 : c.isAlpha = true
    · rw [if_pos h12] at h
      simp only [Except.ok.injEq, Prod.mk.injEq] at h
      have hk : keywordToken (identScan (c :: r) "").1 = .ident n := h.1
      refine identchars_dotfree n ?_
      rw [keywordToken_ident _ _ hk]
      exact identScan_chars (c :: r) "" (by simp)
    rw [if_neg h12] at h
    simp at h

/-- A fresh parser state satisfies the token-buffer invariant. -/
theorem parserNew_stTokOK (s : String) (st : ParseSt)
    (h : parserNew s = .ok st) : stTokOK st := by
  rw [parserNew] at h
  obtain ⟨⟨t, rest⟩, hnt, h⟩ := exceptBind_ok h
  simp [Pure.pure, Except.pure] at h
  subst h
  intro n hn
  simp at hn
  subst hn
  exact next_token_ident_dotfree false s.data n rest hnt

/-- Parser bump preserves the token-buffer invariant. -/
theorem bumpP_stTokOK (st : ParseSt) (t : Token) (st' : ParseSt)
    (h : bumpP st = .ok (t, st')) : stTokOK st' := by
  rw [bumpP] at h
  cases hpk : st.peekTok with
  | none => rw [hpk] at h; simp at h
  | some t0 =>
      rw [hpk] at h
      obtain ⟨⟨t2, rest⟩, hnt, h⟩ := exceptBind_ok h
      simp [Pure.pure, Except.pure] at h
      obtain ⟨-, hst⟩ := h
      subst hst
      intro n hn
      simp at hn
      subst hn
      exact next_token_ident_dotfree false st.src n rest hnt

/-- The token handed out by bump is the buffered one, so an identifier
token obtained from a state satisfying the invariant is dot-free. -/
theorem bumpP_tok_dotfree (st : ParseSt) (t : Token) (st' : ParseSt)
    (hok : stTokOK st) (h : bumpP st = .ok (t, st')) :
    ∀ n, t = .ident n → n.data.contains '.' = false := by
  rw [bumpP] at h
  cases hpk : st.peekTok with
  | none => rw [hpk] at h; simp at h
  | some t0 =>
      rw [hpk] at h
      obtain ⟨⟨t2, rest⟩, hnt, h⟩ := exceptBind_ok h
      simp [Pure.pure, Except.pure] at h
      obtain ⟨ht, -⟩ := h
      intro n hn
      apply hok n
      rw [hpk, ht, hn]

/-- Values produced by the resolver-level dollar parser are strings or
references, hence free of conditions. -/
theorem parse_dollar_reference_good (se : SysEnv) (path : List String)
    (v : Value) (h : parse_dollar_reference se path = .ok v) :
    goodV v = true := by
  rw [parse_dollar_reference.eq_def] at h
  split at h
  · simp at h
    subst h
    simp [goodV]
  · split_ifs at h
    · obtain ⟨a, -, hb⟩ := exceptMap_ok h
      subst hb
      simp [goodV]
    · obtain ⟨a, -, hb⟩ := exceptMap_ok h
      subst hb
      simp [goodV]
    · simp at h
      subst h
      simp [goodV]

/-- Values produced by the whole-string dollar branch are strings or
references, hence free of conditions. -/
theorem singleDollarRef_good (se : SysEnv) (rest : List Char) (v : Value)
    (h : singleDollarRef se rest = .ok v) : goodV v = true := by
  rw [singleDollarRef] at h
  split at h
  · obtain ⟨pr, -, h⟩ := exceptBind_ok h
    exact parse_dollar_reference_good se pr.1 v h
  · obtain ⟨pr, -, h⟩ := exceptBind_ok h
    exact parse_dollar_reference_good se pr.1 v h

/-- Values produced by expand_dollar_string are strings or references,
hence free of conditions. -/
theorem expand_dollar_string_good (se : SysEnv) (s : String) (v : Value)
    (h : expand_dollar_string se s = .ok v) : goodV v = true := by
  rw [expand_dollar_string] at h
  by_cases h1 : ¬(s.data.contains '$' = true)
  · rw [if_pos h1] at h
    simp at h
    subst h
    simp [goodV]
  · rw [if_neg h1] at h
    by_cases h2 : wholeRefCond s.data = true
    · rw [if_pos h2] at h
      split at h
      · exact singleDollarRef_good se _ v h
      · simp at h
        subst h
        simp [goodV]
    · rw [if_neg h2] at h
      obtain ⟨a, -, hb⟩ := exceptMap_ok h
      subst hb
      simp [goodV]

/-- The token-level dotted-path loop preserves the token-buffer
invariant. -/
theorem parseDotPath_stTokOK :
    ∀ (fuel : Nat) (st : ParseSt) (acc path : List String) (st' : ParseSt),
      stTokOK st → parseDotPath fuel st acc = .ok (path, st') →
      stTokOK st' := by
  intro fuel
  induction fuel with
  | zero => intro st acc path st' _ h; simp [parseDotPath] at h
  | succ fuel ih =>
      intro st acc path st' hok h
      rw [parseDotPath] at h
      split at h
      · obtain ⟨b1, hb1, h⟩ := exceptBind_ok h
        obtain ⟨b2, hb2, h⟩ := exceptBind_ok h
        split at h
        · exact ih b2.2 _ path st' (bumpP_stTokOK b1.2 b2.1 b2.2 (by
            rw [← hb2])) h
        · simp at h
      · simp [Pure.pure, Except.pure] at h
        obtain ⟨-, hst⟩ := h
        subst hst
        exact hok

/-- parse_reference_value yields a reference (condition-free) and
preserves the token-buffer invariant. -/
theorem parse_reference_value_good (fuel : Nat) (st : ParseSt) (v : Value)
    (st' : ParseSt) (hok : stTokOK st)
    (h : parse_reference_value fuel st = .ok (v, st')) :
    goodV v = true ∧ stTokOK st' := by
  rw [parse_reference_value] at h
  obtain ⟨b1, hb1, h⟩ := exceptBind_ok h
  split at h
  · obtain ⟨pr, hp, h⟩ := exceptBind_ok h
    simp [Pure.pure, Except.pure] at h
    obtain ⟨hv, hst⟩ := h
    subst hv
    subst hst
    exact ⟨by simp [goodV],
      parseDotPath_stTokOK fuel b1.2 _ pr.1 pr.2
        (bumpP_stTokOK st b1.1 b1.2 (by rw [← hb1])) (by rw [← hp])⟩
  · simp at h

/-- parse_dollar_reference_value yields a string or reference
(condition-free) and preserves the token-buffer invariant. -/
theorem parse_dollar_reference_value_good (fuel : Nat) (st : ParseSt)
    (se : SysEnv) (v : Value) (st' : ParseSt) (hok : stTokOK st)
    (h : parse_dollar_reference_value fuel st se = .ok (v, st')) :
    goodV v = true ∧ stTokOK st' := by
  rw [parse_dollar_reference_value] at h
  obtain ⟨b1, hb1, h⟩ := exceptBind_ok h
  obtain ⟨b2, hb2, h⟩ := exceptBind_ok h
  split at h
  · split_ifs at h
    · obtain ⟨pr, hp, h⟩ := exceptBind_ok h
      obtain ⟨v2, hv2, h⟩ := exceptBind_ok h
      simp [Pure.pure, Except.pure] at h
      obtain ⟨hv, hst⟩ := h
      subst hv
      subst hst
      exact ⟨parse_dollar_reference_good se pr.1 v2 hv2,
        parseDotPath_stTokOK fuel b2.2 _ pr.1 pr.2
          (bumpP_stTokOK b1.2 b2.1 b2.2 (by rw [← hb2])) (by rw [← hp])⟩
  · simp at h

/-- parse_gather_statement preserves the token-buffer invariant (it only
changes the import table of the final state). -/
theorem parse_gather_statement_stTokOK (st st' : ParseSt)
    (h : parse_gather_statement st = .ok st') : stTokOK st' := by
  rw [parse_gather_statement] at h
  obtain ⟨b1, hb1, h⟩ := exceptBind_ok h
  obtain ⟨b2, hb2, h⟩ := exceptBind_ok h
  split at h
  · split at h
    · obtain ⟨bA, hbA, h⟩ := exceptBind_ok h
      obtain ⟨bB, hbB, h⟩ := exceptBind_ok h
      split at h
      · obtain ⟨y, hy, h⟩ := exceptBind_ok h
        simp [Pure.pure, Except.pure] at hy h
        subst hy
        rw [← h]
        intro n hn
        refine bumpP_stTokOK bA.2 bB.1 bB.2 hbB n ?_
        simpa using hn
      · obtain ⟨y, hy, -⟩ := exceptBind_ok h
        simp at hy
    · obtain ⟨y, hy, h⟩ := exceptBind_ok h
      simp [Pure.pure, Except.pure] at hy h
      subst hy
      rw [← h]
      intro n hn
      refine bumpP_stTokOK b1.2 b2.1 b2.2 hb2 n ?_
      simpa using hn
  · simp at h


/-- Concatenation of good item lists is good. -/
theorem goodItems_append : ∀ a b : List ObjectItem,
    goodItems a = true → goodItems b = true → goodItems (a ++ b) = true := by
  intro a
  induction a with
  | nil => intro b _ hb; simpa using hb
  | cons x r ih =>
      intro b ha hb
      cases x with
      | assign k v =>
          simp only [List.cons_append, goodItems, Bool.and_eq_true] at ha ⊢
          exact ⟨ha.1, ih b ha.2 hb⟩
      | ifBlock c t e =>
          simp only [List.cons_append, goodItems, Bool.and_eq_true] at ha ⊢
          exact ⟨ha.1, ih b ha.2 hb⟩

/-- Concatenation of good value lists is good. -/
theorem goodL_append : ∀ a b : List Value,
    goodL a = true → goodL b = true → goodL (a ++ b) = true := by
  intro a
  induction a with
  | nil => intro b _ hb; simpa using hb
  | cons x r ih =>
      intro b ha hb
      simp only [List.cons_append, goodL, Bool.and_eq_true] at ha ⊢
      exact ⟨ha.1, ih b ha.2 hb⟩

/-- Concatenation of good pair lists is good. -/
theorem goodPairs_append : ∀ a b : List (String × Value),
    goodPairs a = true → goodPairs b = true → goodPairs (a ++ b) = true := by
  intro a
  induction a with
  | nil => intro b _ hb; simpa using hb
  | cons x r ih =>
      intro b ha hb
      simp only [List.cons_append, goodPairs, Bool.and_eq_true] at ha ⊢
      exact ⟨ha.1, ih b ha.2 hb⟩

/-- Mutual-induction workhorse: at every fuel, each parse function of the
mutual block preserves the token-buffer invariant and only builds good
values, items and conditions (Equals or Exists with a dot-free path). -/
theorem parser_good_all (se : SysEnv) : ∀ fuel : Nat,
    (∀ st md gl its d st', stTokOK st → goodPairs md = true →
      goodPairs gl = true → goodPairs its = true →
      parseDocLoop se fuel st md gl its = .ok (d, st') →
      docGood d = true ∧ stTokOK st') ∧
    (∀ st gl its g2 i2 st', stTokOK st → goodPairs gl = true →
      goodPairs its = true →
      parse_top_level_item se fuel st gl its = .ok (g2, i2, st') →
      goodPairs g2 = true ∧ goodPairs i2 = true ∧ stTokOK st') ∧
    (∀ st acc out st', stTokOK st → goodItems acc = true →
      parseBlockBody se fuel st acc = .ok (out, st') →
      goodItems out = true ∧ stTokOK st') ∧
    (∀ st kv st', stTokOK st →
      parse_assignment se fuel st = .ok (kv, st') →
      goodV kv.2 = true ∧ stTokOK st') ∧
    (∀ st acc out st', stTokOK st → goodItems acc = true →
      parseNestedObjLoop se fuel st acc = .ok (out, st') →
      goodItems out = true ∧ stTokOK st') ∧
    (∀ st v st', stTokOK st →
      parse_value se fuel st = .ok (v, st') →
      goodV v = true ∧ stTokOK st') ∧
    (∀ st acc v st', stTokOK st → goodL acc = true →
      parseArrayLoop se fuel st acc = .ok (v, st') →
      goodV v = true ∧ stTokOK st') ∧
    (∀ st it st', stTokOK st →
      parse_if_block se fuel st = .ok (it, st') →
      goodItems [it] = true ∧ stTokOK st') ∧
    (∀ st stopE acc out st', stTokOK st → goodItems acc = true →
      parseItemsUntil se fuel st stopE acc = .ok (out, st') →
      goodItems out = true ∧ stTokOK st') ∧
    (∀ st c st', stTokOK st →
      parse_condition se fuel st = .ok (c, st') →
      goodC c = true ∧ stTokOK st') := by
  intro fuel
  induction fuel with
  | zero =>
      refine ⟨?_, ?_, ?_, ?_, ?_, ?_, ?_, ?_, ?_, ?_⟩
      · intro st md gl its d st' _ _ _ _ h
        simp [parseDocLoop] at h
      · intro st gl its g2 i2 st' _ _ _ h
        simp [parse_top_level_item] at h
      · intro st acc out st' _ _ h
        simp [parseBlockBody] at h
      · intro st kv st' _ h
        simp [parse_assignment] at h
      · intro st acc out st' _ _ h
        simp [parseNestedObjLoop] at h
      · intro st v st' _ h
        simp [parse_value] at h
      · intro st acc v st' _ _ h
        simp [parseArrayLoop] at h
      · intro st it st' _ h
        simp [parse_if_block] at h
      · intro st stopE acc out st' _ _ h
        simp [parseItemsUntil] at h
      · intro st c st' _ h
        simp [parse_condition] at h
  | succ fuel ih =>
      obtain ⟨ihA, ihB, ihC, ihD, ihE, ihF, ihG, ihH, ihI, ihJ⟩ := ih
      refine ⟨?_, ?_, ?_, ?_, ?_, ?_, ?_, ?_, ?_, ?_⟩
      · -- parseDocLoop
        intro st md gl its d st' hok hmd hgl hits h
        rw [parseDocLoop] at h
        split at h
        · simp only [Except.ok.injEq, Prod.mk.injEq] at h
          obtain ⟨h1, h2⟩ := h
          subst h1; subst h2
          exact ⟨by simp [docGood, hmd, hgl, hits], hok⟩
        · split at h
          · obtain ⟨b, hb, h⟩ := exceptBind_ok h
            exact ihA b.2 md gl its d st' (bumpP_stTokOK st b.1 b.2 hb)
              hmd hgl hits h
          · simp only [Except.ok.injEq, Prod.mk.injEq] at h
            obtain ⟨h1, h2⟩ := h
            subst h1; subst h2
            exact ⟨by simp [docGood, hmd, hgl, hits], hok⟩
          · obtain ⟨b1, hb1, h⟩ := exceptBind_ok h
            obtain ⟨b2, hb2, h⟩ := exceptBind_ok h
            split at h
            · rename_i key heq
              obtain ⟨pv, hpv, h⟩ := exceptBind_ok h
              have hF := ihF b2.2 pv.1 pv.2
                (bumpP_stTokOK b1.2 b2.1 b2.2 hb2) hpv
              exact ihA pv.2 (md ++ [(key, pv.1)]) gl its d st' hF.2
                (goodPairs_append md [(key, pv.1)] hmd
                  (by simp [goodPairs, hF.1])) hgl hits h
            · simp at h
          · obtain ⟨ti, hti, h⟩ := exceptBind_ok h
            have hB := ihB st gl its ti.1 ti.2.1 ti.2.2 hok hgl hits hti
            exact ihA ti.2.2 md ti.1 ti.2.1 d st' hB.2.2 hmd hB.1 hB.2.1 h
          · obtain ⟨st1, hst1, h⟩ := exceptBind_ok h
            exact ihA st1 md gl its d st'
              (parse_gather_statement_stTokOK st st1 hst1) hmd hgl hits h
          · simp at h
          · simp at h
      · -- parse_top_level_item
        intro st gl its g2 i2 st' hok hgl hits h
        rw [parse_top_level_item] at h
        obtain ⟨b1, hb1, h⟩ := exceptBind_ok h
        have hok1 : stTokOK b1.2 := bumpP_stTokOK st b1.1 b1.2 hb1
        split at h
        · rename_i key heq
          split at h
          · obtain ⟨b2, hb2, h⟩ := exceptBind_ok h
            obtain ⟨ob, hob, h⟩ := exceptBind_ok h
            have hC := ihC b2.2 [] ob.1 ob.2
              (bumpP_stTokOK b1.2 b2.1 b2.2 hb2) rfl hob
            simp only [Pure.pure, Except.pure, Except.ok.injEq,
              Prod.mk.injEq] at h
            obtain ⟨h1, h2, h3⟩ := h
            subst h1; subst h2; subst h3
            exact ⟨hgl, goodPairs_append its [(key, .object ob.1)] hits
              (by simp [goodPairs, goodV, hC.1]), hC.2⟩
          · obtain ⟨b2, hb2, h⟩ := exceptBind_ok h
            obtain ⟨pv, hpv, h⟩ := exceptBind_ok h
            have hF := ihF b2.2 pv.1 pv.2
              (bumpP_stTokOK b1.2 b2.1 b2.2 hb2) hpv
            simp only [Pure.pure, Except.pure, Except.ok.injEq,
              Prod.mk.injEq] at h
            obtain ⟨h1, h2, h3⟩ := h
            subst h1; subst h2; subst h3
            exact ⟨goodPairs_append gl [(key, pv.1)] hgl
              (by simp [goodPairs, hF.1]), hits, hF.2⟩
          · obtain ⟨pv, hpv, h⟩ := exceptBind_ok h
            have hF := ihF b1.2 pv.1 pv.2 hok1 hpv
            simp only [Pure.pure, Except.pure, Except.ok.injEq,
              Prod.mk.injEq] at h
            obtain ⟨h1, h2, h3⟩ := h
            subst h1; subst h2; subst h3
            exact ⟨goodPairs_append gl [(key, pv.1)] hgl
              (by simp [goodPairs, hF.1]), hits, hF.2⟩
        · simp at h
      · -- parseBlockBody
        intro st acc out st' hok hacc h
        rw [parseBlockBody] at h
        split at h
        · simp only [Except.ok.injEq, Prod.mk.injEq] at h
          obtain ⟨h1, h2⟩ := h
          subst h1; subst h2
          exact ⟨hacc, hok⟩
        · obtain ⟨kv, hkv, h⟩ := exceptBind_ok h
          have hD := ihD st kv.1 kv.2 hok hkv
          exact ihC kv.2 (acc ++ [.assign kv.1.1 kv.1.2]) out st' hD.2
            (goodItems_append acc [.assign kv.1.1 kv.1.2] hacc
              (by simp [goodItems, hD.1])) h
        · obtain ⟨ib, hib, h⟩ := exceptBind_ok h
          have hH := ihH st ib.1 ib.2 hok hib
          exact ihC ib.2 (acc ++ [ib.1]) out st' hH.2
            (goodItems_append acc [ib.1] hacc hH.1) h
        · obtain ⟨b, hb, h⟩ := exceptBind_ok h
          simp only [Except.ok.injEq, Prod.mk.injEq] at h
          obtain ⟨h1, h2⟩ := h
          subst h1; subst h2
          exact ⟨hacc, bumpP_stTokOK st b.1 b.2 hb⟩
        · obtain ⟨b, hb, h⟩ := exceptBind_ok h
          exact ihC b.2 acc out st' (bumpP_stTokOK st b.1 b.2 hb) hacc h
        · simp at h
      · -- parse_assignment
        intro st kv st' hok h
        rw [parse_assignment] at h
        obtain ⟨b1, hb1, h⟩ := exceptBind_ok h
        have hok1 : stTokOK b1.2 := bumpP_stTokOK st b1.1 b1.2 hb1
        split at h
        · rename_i key heq
          split at h
          · obtain ⟨b2, hb2, h⟩ := exceptBind_ok h
            obtain ⟨ob, hob, h⟩ := exceptBind_ok h
            have hE := ihE b2.2 [] ob.1 ob.2
              (bumpP_stTokOK b1.2 b2.1 b2.2 hb2) rfl hob
            simp only [Pure.pure, Except.pure, Except.ok.injEq,
              Prod.mk.injEq] at h
            obtain ⟨h1, h2⟩ := h
            subst h1; subst h2
            exact ⟨by simp [goodV, hE.1], hE.2⟩
          · obtain ⟨b2, hb2, h⟩ := exceptBind_ok h
            obtain ⟨pv, hpv, h⟩ := exceptBind_ok h
            have hF := ihF b2.2 pv.1 pv.2
              (bumpP_stTokOK b1.2 b2.1 b2.2 hb2) hpv
            simp only [Pure.pure, Except.pure, Except.ok.injEq,
              Prod.mk.injEq] at h
            obtain ⟨h1, h2⟩ := h
            subst h1; subst h2
            exact ⟨hF.1, hF.2⟩
          · obtain ⟨pv, hpv, h⟩ := exceptBind_ok h
            have hF := ihF b1.2 pv.1 pv.2 hok1 hpv
            simp only [Pure.pure, Except.pure, Except.ok.injEq,
              Prod.mk.injEq] at h
            obtain ⟨h1, h2⟩ := h
            subst h1; subst h2
            exact ⟨hF.1, hF.2⟩
        · simp at h
      · -- parseNestedObjLoop
        intro st acc out st' hok hacc h
        rw [parseNestedObjLoop] at h
        split at h
        · simp only [Except.ok.injEq, Prod.mk.injEq] at h
          obtain ⟨h1, h2⟩ := h
          subst h1; subst h2
          exact ⟨hacc, hok⟩
        · obtain ⟨kv, hkv, h⟩ := exceptBind_ok h
          have hD := ihD st kv.1 kv.2 hok hkv
          exact ihE kv.2 (acc ++ [.assign kv.1.1 kv.1.2]) out st' hD.2
            (goodItems_append acc [.assign kv.1.1 kv.1.2] hacc
              (by simp [goodItems, hD.1])) h
        · obtain ⟨b, hb, h⟩ := exceptBind_ok h
          simp only [Except.ok.injEq, Prod.mk.injEq] at h
          obtain ⟨h1, h2⟩ := h
          subst h1; subst h2
          exact ⟨hacc, bumpP_stTokOK st b.1 b.2 hb⟩
        · obtain ⟨b, hb, h⟩ := exceptBind_ok h
          exact ihE b.2 acc out st' (bumpP_stTokOK st b.1 b.2 hb) hacc h
        · simp at h
      · -- parse_value
        intro st v st' hok h
        rw [parse_value] at h
        split at h
        · obtain ⟨b, hb, h⟩ := exceptBind_ok h
          split at h
          · rename_i s0 heq
            obtain ⟨v0, hv0, h⟩ := exceptBind_ok h
            simp only [Pure.pure, Except.pure, Except.ok.injEq,
              Prod.mk.injEq] at h
            obtain ⟨h1, h2⟩ := h
            subst h1; subst h2
            exact ⟨expand_dollar_string_good se s0 v0 hv0,
              bumpP_stTokOK st b.1 b.2 hb⟩
          · simp at h
        · obtain ⟨b, hb, h⟩ := exceptBind_ok h
          split at h
          · simp only [Pure.pure, Except.pure, Except.ok.injEq,
              Prod.mk.injEq] at h
            obtain ⟨h1, h2⟩ := h
            subst h1; subst h2
            exact ⟨rfl, bumpP_stTokOK st b.1 b.2 hb⟩
          · simp at h
        · obtain ⟨b, hb, h⟩ := exceptBind_ok h
          split at h
          · simp only [Pure.pure, Except.pure, Except.ok.injEq,
              Prod.mk.injEq] at h
            obtain ⟨h1, h2⟩ := h
            subst h1; subst h2
            exact ⟨rfl, bumpP_stTokOK st b.1 b.2 hb⟩
          · simp at h
        · obtain ⟨b, hb, h⟩ := exceptBind_ok h
          split at h
          · simp only [Pure.pure, Except.pure, Except.ok.injEq,
              Prod.mk.injEq] at h
            obtain ⟨h1, h2⟩ := h
            subst h1; subst h2
            exact ⟨rfl, bumpP_stTokOK st b.1 b.2 hb⟩
          · simp at h
        · exact parse_dollar_reference_value_good fuel st se v st' hok h
        · exact parse_reference_value_good fuel st v st' hok h
        · obtain ⟨b, hb, h⟩ := exceptBind_ok h
          exact ihG b.2 [] v st' (bumpP_stTokOK st b.1 b.2 hb) rfl h
        · obtain ⟨b, hb, h⟩ := exceptBind_ok h
          simp only [Pure.pure, Except.pure, Except.ok.injEq,
            Prod.mk.injEq] at h
          obtain ⟨h1, h2⟩ := h
          subst h1; subst h2
          exact ⟨rfl, bumpP_stTokOK st b.1 b.2 hb⟩
        · obtain ⟨b, hb, h⟩ := exceptBind_ok h
          simp at h
      · -- parseArrayLoop
        intro st acc v st' hok hacc h
        rw [parseArrayLoop] at h
        split at h
        · simp only [Except.ok.injEq, Prod.mk.injEq] at h
          obtain ⟨h1, h2⟩ := h
          subst h1; subst h2
          exact ⟨by simp [goodV, hacc], hok⟩
        · obtain ⟨b, hb, h⟩ := exceptBind_ok h
          simp only [Except.ok.injEq, Prod.mk.injEq] at h
          obtain ⟨h1, h2⟩ := h
          subst h1; subst h2
          exact ⟨by simp [goodV, hacc], bumpP_stTokOK st b.1 b.2 hb⟩
        · obtain ⟨b, hb, h⟩ := exceptBind_ok h
          exact ihG b.2 acc v st' (bumpP_stTokOK st b.1 b.2 hb) hacc h
        · obtain ⟨pv, hpv, h⟩ := exceptBind_ok h
          have hF := ihF st pv.1 pv.2 hok hpv
          exact ihG pv.2 (acc ++ [pv.1]) v st' hF.2
            (goodL_append acc [pv.1] hacc (by simp [goodL, hF.1])) h
      · -- parse_if_block
        intro st it st' hok h
        rw [parse_if_block] at h
        obtain ⟨b1, hb1, h⟩ := exceptBind_ok h
        obtain ⟨pc, hpc, h⟩ := exceptBind_ok h
        have hJ := ihJ b1.2 pc.1 pc.2 (bumpP_stTokOK st b1.1 b1.2 hb1) hpc
        obtain ⟨b2, hb2, h⟩ := exceptBind_ok h
        have hok2 : stTokOK b2.2 := bumpP_stTokOK pc.2 b2.1 b2.2 hb2
        split at h
        · obtain ⟨ti, hti, h⟩ := exceptBind_ok h
          have hI := ihI b2.2 true [] ti.1 ti.2 hok2 rfl hti
          split at h
          · obtain ⟨b3, hb3, h⟩ := exceptBind_ok h
            obtain ⟨b4, hb4, h⟩ := exceptBind_ok h
            split at h
            · obtain ⟨ei, hei, h⟩ := exceptBind_ok h
              have hI2 := ihI b4.2 false [] ei.1 ei.2
                (bumpP_stTokOK b3.2 b4.1 b4.2 hb4) rfl hei
              obtain ⟨b5, hb5, h⟩ := exceptBind_ok h
              split at h
              · simp only [Pure.pure, Except.pure, Except.ok.injEq,
                  Prod.mk.injEq] at h
                obtain ⟨h1, h2⟩ := h
                subst h1; subst h2
                exact ⟨by simp [goodItems, goodOItems, hJ.1, hI.1, hI2.1],
                  bumpP_stTokOK ei.2 b5.1 b5.2 hb5⟩
              · simp at h
            · simp at h
          · obtain ⟨b3, hb3, h⟩ := exceptBind_ok h
            split at h
            · simp only [Pure.pure, Except.pure, Except.ok.injEq,
                Prod.mk.injEq] at h
              obtain ⟨h1, h2⟩ := h
              subst h1; subst h2
              exact ⟨by simp [goodItems, goodOItems, hJ.1, hI.1],
                bumpP_stTokOK ti.2 b3.1 b3.2 hb3⟩
            · simp at h
        · simp at h
      · -- parseItemsUntil
        intro st stopE acc out st' hok hacc h
        rw [parseItemsUntil] at h
        split at h
        · simp only [Except.ok.injEq, Prod.mk.injEq] at h
          obtain ⟨h1, h2⟩ := h
          subst h1; subst h2
          exact ⟨hacc, hok⟩
        · obtain ⟨b, hb, h⟩ := exceptBind_ok h
          exact ihI b.2 stopE acc out st' (bumpP_stTokOK st b.1 b.2 hb)
            hacc h
        · obtain ⟨kv, hkv, h⟩ := exceptBind_ok h
          have hD := ihD st kv.1 kv.2 hok hkv
          exact ihI kv.2 stopE (acc ++ [.assign kv.1.1 kv.1.2]) out st' hD.2
            (goodItems_append acc [.assign kv.1.1 kv.1.2] hacc
              (by simp [goodItems, hD.1])) h
        · obtain ⟨ib, hib, h⟩ := exceptBind_ok h
          have hH := ihH st ib.1 ib.2 hok hib
          exact ihI ib.2 stopE (acc ++ [ib.1]) out st' hH.2
            (goodItems_append acc [ib.1] hacc hH.1) h
        · split at h
          · simp only [Except.ok.injEq, Prod.mk.injEq] at h
            obtain ⟨h1, h2⟩ := h
            subst h1; subst h2
            exact ⟨hacc, hok⟩
          · simp at h
        · simp only [Except.ok.injEq, Prod.mk.injEq] at h
          obtain ⟨h1, h2⟩ := h
          subst h1; subst h2
          exact ⟨hacc, hok⟩
        · simp at h
        · simp at h
      · -- parse_condition
        intro st c st' hok h
        rw [parse_condition] at h
        obtain ⟨b1, hb1, h⟩ := exceptBind_ok h
        have hdf := bumpP_tok_dotfree st b1.1 b1.2 hok hb1
        have hok1 := bumpP_stTokOK st b1.1 b1.2 hb1
        split at h
        · rename_i name heq
          have hname : dotFree name = true := by
            rw [dotFree, hdf name heq]
            rfl
          split at h
          · obtain ⟨b2, hb2, h⟩ := exceptBind_ok h
            obtain ⟨pv, hpv, h⟩ := exceptBind_ok h
            have hF := ihF b2.2 pv.1 pv.2
              (bumpP_stTokOK b1.2 b2.1 b2.2 hb2) hpv
            simp only [Pure.pure, Except.pure, Except.ok.injEq,
              Prod.mk.injEq] at h
            obtain ⟨h1, h2⟩ := h
            subst h1; subst h2
            exact ⟨by simp [goodC, hname, hF.1], hF.2⟩
          · simp only [Pure.pure, Except.pure, Except.ok.injEq,
              Prod.mk.injEq] at h
            obtain ⟨h1, h2⟩ := h
            subst h1; subst h2
            exact ⟨by simp [goodC, hname], hok1⟩
        · simp at h

/-- C9: every Condition constructed by the parser in a successfully parsed
document is an Equals or an Exists condition, and its path is a single
dot-free identifier (parse_condition only builds these two constructors
from a single Ident token, and the lexer never puts a dot inside an
identifier). -/
theorem c9_conditions_good (se : SysEnv) (fuel : Nat) (s : String)
    (doc : Document) (st' : ParseSt)
    (h : parseRune se fuel s = .ok (doc, st')) : docGood doc = true := by
  rw [parseRune] at h
  obtain ⟨st0, hst0, h⟩ := exceptBind_ok h
  exact ((parser_good_all se fuel).1 st0 [] [] [] doc st'
    (parserNew_stTokOK s st0 hst0) rfl rfl rfl h).1

/-- C9 witness: the condition property evaluated on a concrete parse. -/
theorem c9_conditions_good_witness :
    docGood ⟨[("app", .object [.assign "flag" (.bool true)])], [], []⟩ =
      true :=
  c9_conditions_good seNone 50 "app:\nflag true\nend"
    ⟨[("app", .object [.assign "flag" (.bool true)])], [], []⟩
    ⟨[], some .eof, []⟩ (by rfl)

end Rune
